import Mathlib

/-!
Verification development for the USL-ERP exam scheduler (enhanced algorithm
v5.0).  The TypeScript source is shallowly embedded: every mutable map of the
source becomes an explicit association list threaded through the functions,
the room-usage ledger (a map from day to map from slot to set of rooms)
becomes the set of its (day, slot, room) triples, and each phase of the
orchestrator becomes a fold returning the updated state together with its
count of placed sections and its list of deferred sections.
-/

set_option maxRecDepth 4000

/-! ### Data model -/

/-- An input exam section.  In the source, `course` and `yearLevel` are
falsy when missing; the embedding uses the empty string and `0` for the
missing values. -/
structure Exam where
  code : String
  subjectId : String
  title : String
  course : String
  yearLevel : Nat
  instructor : String
  dept : String
  oe : String
  lec : Nat
  studentCount : Nat
  isRegular : Bool
  lectureRoom : String
deriving DecidableEq, Repr

/-- An output record: an exam section plus its assignment. -/
structure ScheduledExam where
  CODE : String
  SUBJECT_ID : String
  DESCRIPTIVE_TITLE : String
  COURSE : String
  YEAR_LEVEL : Nat
  INSTRUCTOR : String
  DEPT : String
  OE : String
  DAY : String
  SLOT : String
  ROOM : String
  UNITS : Nat
  STUDENT_COUNT : Nat
  PRIORITY : Nat
  IS_REGULAR : Bool
  LECTURE_ROOM : String
deriving DecidableEq, Repr

/-- The latest recorded (day, slot) placement of a subject. -/
structure Placement where
  day : String
  slot : String
deriving DecidableEq, Repr

/-- The scheduling ledger.  Only `roomUsage` and `subjectScheduled` are ever
read or written by the algorithm (the four remaining maps of the source's
`SchedulingState` stay empty for the whole run and are omitted).
`roomUsage` is the set of occupied (day label, slot label, room) triples. -/
structure SchedulingState where
  roomUsage : List (String × String × String)
  subjectScheduled : List (String × Placement)
deriving DecidableEq, Repr

/-- The ledger together with the output accumulator (the `scheduled` map of
the source, keyed by `code ++ "-" ++ slotLabel`). -/
structure RunSt where
  state : SchedulingState
  out : List (String × ScheduledExam)
deriving DecidableEq, Repr

def emptyState : SchedulingState := ⟨[], []⟩

def emptyRun : RunSt := ⟨emptyState, []⟩

/-! ### Association-list primitives (the `Map`s of the source) -/

/-- Lookup in an association list (first binding wins, as in a JS `Map`). -/
def alookup {β : Type} (m : List (String × β)) (k : String) : Option β :=
  match m with
  | [] => none
  | (k1, v) :: rest => if k1 = k then some v else alookup rest k

/-- `Map.set`: replace the binding in place if the key is present (keeping
its position, as a JS `Map` does), otherwise append it at the end. -/
def mapSet {β : Type} (m : List (String × β)) (k : String) (v : β) :
    List (String × β) :=
  match m with
  | [] => [(k, v)]
  | (k1, v1) :: rest =>
      if k1 = k then (k, v) :: rest else (k1, v1) :: mapSet rest k v

/-- Append `x` to the list stored under `k`, creating the binding if needed
(the `if (!m[k]) m[k] = []; m[k].push(x)` idiom of the source). -/
def multiAdd {α : Type} (m : List (String × List α)) (k : String) (x : α) :
    List (String × List α) :=
  match m with
  | [] => [(k, [x])]
  | (k1, xs) :: rest =>
      if k1 = k then (k1, xs ++ [x]) :: rest else (k1, xs) :: multiAdd rest k x

/-- Group a list by a key function, skipping elements not satisfying
`valid`, preserving encounter order of keys and of elements within a key. -/
def groupByKey {α : Type} (key : α → String) (valid : α → Bool)
    (xs : List α) : List (String × List α) :=
  xs.foldl (fun m x => if valid x then multiAdd m (key x) x else m) []

/-! ### String primitives

The JavaScript string methods are embedded as structurally recursive
functions over character lists (`toUpperCase` maps `Char.toUpper` over the
characters, `trim` strips whitespace from both ends, `startsWith` compares
a leading run), so that every computation reduces inside the kernel. -/

/-- Whether `sub` matches at the head of `s`. -/
def charsLeadMatch : List Char → List Char → Bool
  | [], _ => true
  | _ :: _, [] => false
  | c :: cs, d :: ds => c == d && charsLeadMatch cs ds

/-- Whether `sub` occurs as a contiguous run inside `s`. -/
def charsContain (sub : List Char) : List Char → Bool
  | [] => sub.isEmpty
  | c :: cs => charsLeadMatch sub (c :: cs) || charsContain sub cs

/-- Substring containment (`String.prototype.includes`). -/
def strIncludes (s sub : String) : Bool :=
  charsContain sub.toList s.toList

/-- `String.prototype.toUpperCase` (character-wise upper-casing). -/
def strUpper (s : String) : String := String.mk (s.toList.map Char.toUpper)

/-- `String.prototype.trim`. -/
def strTrim (s : String) : String :=
  String.mk
    (((s.toList.dropWhile Char.isWhitespace).reverse.dropWhile
      Char.isWhitespace).reverse)

/-- `String.prototype.startsWith`. -/
def strStarts (s p : String) : Bool := charsLeadMatch p.toList s.toList

/-! ### Constants and configuration -/

def TIME_SLOTS : List String :=
  ["7:30-9:00", "9:00-10:30", "10:30-12:00", "12:00-1:30",
   "1:30-3:00", "3:00-4:30", "4:30-6:00", "6:00-7:30"]

/-- The label of slot index `s` (out-of-range indices never occur in the
scan loops; they yield the empty label). -/
def timeSlot (s : Nat) : String := TIME_SLOTS.getD s ""

/-- The label of day index `d` (0-based index, 1-based label). -/
def dayLabel (d : Nat) : String := "Day " ++ toString (d + 1)

structure TimeBlock where
  day : Nat
  slot : Nat
  capacity : Nat
deriving DecidableEq, Repr

/-- Gen Ed time block mapping (Section 6 of the requirements). -/
def GEN_ED_TIME_BLOCKS : List (String × List TimeBlock) :=
  [("ETHC", [⟨0, 0, 14⟩]),
   ("ENGL", [⟨0, 2, 23⟩, ⟨2, 0, 34⟩]),
   ("PHED", [⟨0, 3, 27⟩, ⟨1, 0, 46⟩]),
   ("CFED", [⟨0, 4, 46⟩, ⟨1, 1, 36⟩, ⟨1, 2, 44⟩]),
   ("CONW", [⟨1, 5, 33⟩]),
   ("LANG", [⟨2, 3, 15⟩]),
   ("LITR", [⟨2, 4, 9⟩])]

def genEdBlocks (t : String) : List TimeBlock :=
  (alookup GEN_ED_TIME_BLOCKS t).getD []

def PRIORITY_GEN_ED : Nat := 100000
def PRIORITY_MATH : Nat := 50000
def PRIORITY_ARCH : Nat := 40000
def PRIORITY_MAJOR : Nat := 10000

/-! ### Helper functions -/

def getGenEdType (subjectId : String) : Option String :=
  if subjectId = "" then none else
  let upper := strUpper subjectId
  if strStarts upper "ETHC" then some "ETHC"
  else if strStarts upper "ENGL" then some "ENGL"
  else if strStarts upper "PHED" then some "PHED"
  else if strStarts upper "CFED" then some "CFED"
  else if strStarts upper "CONW" then some "CONW"
  else if strStarts upper "LANG" || strStarts upper "JAPN" ||
          strStarts upper "CHIN" || strStarts upper "SPAN" then some "LANG"
  else if strStarts upper "LITR" then some "LITR"
  else none

def isGenEdSubject (subjectId : String) : Bool :=
  (getGenEdType subjectId).isSome

def isMathSubject (e : Exam) : Bool :=
  strStarts (strUpper e.subjectId) "MATH" && strUpper e.dept == "SACE"

def isArchSubject (subjectId : String) : Bool :=
  strIncludes (strUpper subjectId) "ARCH"

def calculatePriority (e : Exam) : Nat :=
  if isGenEdSubject e.subjectId then PRIORITY_GEN_ED
  else if isMathSubject e then PRIORITY_MATH
  else if isArchSubject e.subjectId then PRIORITY_ARCH
  else PRIORITY_MAJOR

/-- The leading run of uppercase letters of a room identifier, provided it
is immediately followed by a dash (the regex match of the source); the empty
string otherwise. -/
def getBuildingFromRoom (room : String) : String :=
  let cs := room.toList
  let pre := cs.takeWhile Char.isUpper
  match pre, cs.dropWhile Char.isUpper with
  | [], _ => ""
  | _, [] => ""
  | p, c :: _ => if c = '-' then String.mk p else ""

def getAvailableBuildings (dept subjectId : String) : List String :=
  if isArchSubject subjectId then ["C", "K"]
  else
    let deptUpper := strUpper dept
    if strIncludes deptUpper "SECAP" then ["A", "J", "B"]
    else if strIncludes deptUpper "SABH" then ["A"]
    else if strIncludes deptUpper "SACE" then ["N", "K", "C"]
    else if strIncludes deptUpper "SHAS" then ["L", "M", "N", "K", "J"]
    else ["A", "N", "K", "L", "M", "J", "B", "C"]

def is6UnitSubject (e : Exam) : Bool := e.lec == 6

/-! ### Conflict detection -/

/-- Normalised subject identifier (`subjectId.toUpperCase().trim()`). -/
def normSubj (s : String) : String := strTrim (strUpper s)

/-- Whether the section carries both a course and a year level; sections
failing this are excluded from conflict computation. -/
def examValidCY (e : Exam) : Bool := !(e.course == "") && !(e.yearLevel == 0)

/-- The course-year cohort key of a section. -/
def courseYearKeyOf (e : Exam) : String :=
  strTrim e.course ++ "-" ++ toString e.yearLevel

/-- The conflict matrix: course-year key, then subject, then the set (list,
up to membership) of conflicting subjects. -/
abbrev ConflictMatrix := List (String × List (String × List String))

/-- `Set.add`. -/
def setAdd (s : List String) (x : String) : List String :=
  if s.contains x then s else s ++ [x]

def rowAdd (r : List (String × List String)) (a b : String) :
    List (String × List String) :=
  match r with
  | [] => [(a, [b])]
  | (a1, s) :: rest =>
      if a1 = a then (a1, setAdd s b) :: rest else (a1, s) :: rowAdd rest a b

def rowEnsure (r : List (String × List String)) (a : String) :
    List (String × List String) :=
  match alookup r a with
  | some _ => r
  | none => r ++ [(a, [])]

def mtxAdd (m : ConflictMatrix) (k a b : String) : ConflictMatrix :=
  match m with
  | [] => [(k, [(a, [b])])]
  | (k1, row) :: rest =>
      if k1 = k then (k1, rowAdd row a b) :: rest
      else (k1, row) :: mtxAdd rest k a b

def mtxEnsureCell (m : ConflictMatrix) (k a : String) : ConflictMatrix :=
  match m with
  | [] => [(k, [(a, [])])]
  | (k1, row) :: rest =>
      if k1 = k then (k1, rowEnsure row a) :: rest
      else (k1, row) :: mtxEnsureCell rest k a

/-- The conflict set `matrix[k][a]` (empty when either level is absent). -/
def mtxGet (m : ConflictMatrix) (k a : String) : List String :=
  match alookup m k with
  | none => []
  | some row => (alookup row a).getD []

def groupByCourseYear (exams : List Exam) : List (String × List Exam) :=
  groupByKey courseYearKeyOf examValidCY exams

/-- The nested pair loop of `buildConflictMatrix` for one course-year
group. -/
def conflictPairsFold (k : String) (grp : List Exam) (m : ConflictMatrix) :
    ConflictMatrix :=
  grp.foldl (fun m1 e1 =>
    let s1 := normSubj e1.subjectId
    grp.foldl (fun m2 e2 =>
      let s2 := normSubj e2.subjectId
      if e1.code != e2.code && s1 != s2 then mtxAdd m2 k s1 s2 else m2)
      (mtxEnsureCell m1 k s1)) m

def buildConflictMatrix (exams : List Exam) : ConflictMatrix :=
  (groupByCourseYear exams).foldl (fun m kg => conflictPairsFold kg.1 kg.2 m) []

def hasConflict (e : Exam) (day slot : Nat) (st : SchedulingState)
    (matrix : ConflictMatrix) : Bool :=
  if e.course == "" || e.yearLevel == 0 then false
  else
    let courseYear := courseYearKeyOf e
    let dayKey := dayLabel day
    let slotKey := timeSlot slot
    let subjId := normSubj e.subjectId
    (mtxGet matrix courseYear subjId).any (fun conflictSubj =>
      match alookup st.subjectScheduled conflictSubj with
      | some existing => existing.day == dayKey && existing.slot == slotKey
      | none => false)

/-! ### Room management -/

/-- The rooms recorded as occupied at (day label, slot label). -/
def roomsAt (st : SchedulingState) (dayKey slotKey : String) : List String :=
  st.roomUsage.filterMap (fun t =>
    if t.1 == dayKey && t.2.1 == slotKey then some t.2.2 else none)

def getAvailableRooms (e : Exam) (day slot : Nat) (allRooms : List String)
    (st : SchedulingState) (requireConsecutive : Bool) : List String :=
  let dayKey := dayLabel day
  let slotKey := timeSlot slot
  let allowedBuildings := getAvailableBuildings e.dept e.subjectId
  let available := allRooms.filter (fun room =>
    allowedBuildings.contains (getBuildingFromRoom room))
  let occupied := roomsAt st dayKey slotKey
  let occupied :=
    if requireConsecutive && slot < TIME_SLOTS.length - 1 then
      occupied ++ roomsAt st dayKey (timeSlot (slot + 1))
    else occupied
  available.filter (fun room => !occupied.contains room)

/-! ### Scheduling operations -/

def mkScheduledExam (e : Exam) (dayKey slotKey room : String) : ScheduledExam :=
  { CODE := e.code
    SUBJECT_ID := e.subjectId
    DESCRIPTIVE_TITLE := e.title
    COURSE := e.course
    YEAR_LEVEL := e.yearLevel
    INSTRUCTOR := e.instructor
    DEPT := e.dept
    OE := e.oe
    DAY := dayKey
    SLOT := slotKey
    ROOM := room
    UNITS := e.lec
    STUDENT_COUNT := e.studentCount
    PRIORITY := calculatePriority e
    IS_REGULAR := e.isRegular
    LECTURE_ROOM := e.lectureRoom }

def scheduleExam (e : Exam) (day slot : Nat) (room : String)
    (isSecondSlotOf6Unit : Bool) (rs : RunSt) : RunSt :=
  let dayKey := dayLabel day
  let slotKey := timeSlot slot
  let scheduledExam := mkScheduledExam e dayKey slotKey room
  let st := { rs.state with
    roomUsage := (dayKey, slotKey, room) :: rs.state.roomUsage }
  let subjMap := mapSet st.subjectScheduled (normSubj e.subjectId) ⟨dayKey, slotKey⟩
  let st :=
    if isSecondSlotOf6Unit then st
    else { st with subjectScheduled := subjMap }
  { state := st, out := mapSet rs.out (e.code ++ "-" ++ slotKey) scheduledExam }

def schedule6UnitExam (e : Exam) (day slot : Nat) (room : String)
    (rs : RunSt) : RunSt × Bool :=
  if TIME_SLOTS.length - 1 ≤ slot then (rs, false)
  else
    let rs1 := scheduleExam e day slot room false rs
    let rs2 := scheduleExam e day (slot + 1) room true rs1
    (rs2, true)

/-! ### Group scheduling -/

def groupExamsBySubject (exams : List Exam) : List (String × List Exam) :=
  groupByKey (fun e => normSubj e.subjectId) (fun _ => true) exams

/-- The commit loop of `tryScheduleGroup`: each section paired with its
room (assignment by position in the available-rooms list). -/
def scheduleGroupLoop (pairs : List (Exam × String)) (day slot : Nat)
    (rs : RunSt) : RunSt × Bool :=
  match pairs with
  | [] => (rs, true)
  | (e, room) :: rest =>
      if is6UnitSubject e then
        match schedule6UnitExam e day slot room rs with
        | (rs1, true) => scheduleGroupLoop rest day slot rs1
        | (rs1, false) => (rs1, false)
      else
        scheduleGroupLoop rest day slot (scheduleExam e day slot room false rs)

def tryScheduleGroup (examGroup : List Exam) (day slot : Nat)
    (allRooms : List String) (matrix : ConflictMatrix) (rs : RunSt) :
    RunSt × Bool :=
  match examGroup with
  | [] => (rs, true)
  | e0 :: _ =>
      let has6Unit := examGroup.any is6UnitSubject
      if examGroup.any (fun e => hasConflict e day slot rs.state matrix) then
        (rs, false)
      else
        let availableRooms :=
          getAvailableRooms e0 day slot allRooms rs.state has6Unit
        if availableRooms.length < examGroup.length then (rs, false)
        else scheduleGroupLoop (examGroup.zip availableRooms) day slot rs

/-! ### Grid scanning -/

/-- Try a group at a list of candidate cells, stopping at the first success;
state mutated by a failing attempt is carried forward, as in the source. -/
def tryGroupCells (examGroup : List Exam) (cells : List (Nat × Nat))
    (allRooms : List String) (matrix : ConflictMatrix) (rs : RunSt) :
    RunSt × Bool :=
  match cells with
  | [] => (rs, false)
  | (d, s) :: rest =>
      match tryScheduleGroup examGroup d s allRooms matrix rs with
      | (rs1, true) => (rs1, true)
      | (rs1, false) => tryGroupCells examGroup rest allRooms matrix rs1

/-- The full day-major, slot-minor grid. -/
def gridCells (numDays : Nat) : List (Nat × Nat) :=
  (List.range numDays).foldr
    (fun d acc => ((List.range TIME_SLOTS.length).map (fun s => (d, s))) ++ acc)
    []

/-- The cells of a category's declared time blocks that fit inside the day
count (blocks with `day ≥ numDays` are skipped by the source's guard). -/
def blockCells (blocks : List TimeBlock) (numDays : Nat) : List (Nat × Nat) :=
  (blocks.filter (fun b => b.day < numDays)).map (fun b => (b.day, b.slot))

/-- Accumulator of one phase: state, count placed, deferred sections. -/
abbrev PhaseAcc := RunSt × Nat × List Exam

/-- Place each subject group at the first workable cell of `cells`; groups
that fit nowhere are appended to the failed list. -/
def foldGroups (cells : List (Nat × Nat)) (allRooms : List String)
    (matrix : ConflictMatrix) (groups : List (String × List Exam))
    (acc : PhaseAcc) : PhaseAcc :=
  groups.foldl (fun a kg =>
    match tryGroupCells kg.2 cells allRooms matrix a.1 with
    | (rs1, true) => (rs1, a.2.1 + kg.2.length, a.2.2)
    | (rs1, false) => (rs1, a.2.1, a.2.2 ++ kg.2)) acc

/-! ### Phase 1: Gen Ed time blocks -/

def genEdsByType (exams : List Exam) : List (String × List Exam) :=
  groupByKey (fun e => (getGenEdType e.subjectId).getD "")
    (fun e => (getGenEdType e.subjectId).isSome) exams

/-- The phase-1 body for one Gen Ed category: its subject groups are tried
against the category's declared blocks, or against the whole grid when the
category has no declared blocks. -/
def genEdTypeStep (allRooms : List String) (matrix : ConflictMatrix)
    (numDays : Nat) (a : PhaseAcc) (kg : String × List Exam) : PhaseAcc :=
  let subjectGroups := groupExamsBySubject kg.2
  let timeBlocks := genEdBlocks kg.1
  if timeBlocks.isEmpty then
    foldGroups (gridCells numDays) allRooms matrix subjectGroups a
  else
    foldGroups (blockCells timeBlocks numDays) allRooms matrix subjectGroups a

def scheduleGenEdTimeBlocks (exams : List Exam) (allRooms : List String)
    (matrix : ConflictMatrix) (numDays : Nat) (rs : RunSt) : PhaseAcc :=
  (genEdsByType exams).foldl (genEdTypeStep allRooms matrix numDays) (rs, 0, [])

/-! ### Phase 2: high-priority subjects (MATH and ARCH) -/

def scheduleHighPriority (exams : List Exam) (allRooms : List String)
    (matrix : ConflictMatrix) (numDays : Nat) (rs : RunSt) : PhaseAcc :=
  let mathGroups := groupExamsBySubject (exams.filter isMathSubject)
  let a1 := foldGroups (gridCells numDays) allRooms matrix mathGroups (rs, 0, [])
  let archGroups :=
    groupExamsBySubject (exams.filter (fun e => isArchSubject e.subjectId))
  foldGroups (gridCells numDays) allRooms matrix archGroups a1

/-! ### Phase 3: major subjects -/

/-- Stable insertion of a group into a size-sorted group list: the group is
placed after every group of strictly smaller size and before the first group
of equal or larger size already present. -/
def insertBySize (x : String × List Exam) :
    List (String × List Exam) → List (String × List Exam)
  | [] => [x]
  | y :: ys =>
      if y.2.length < x.2.length then y :: insertBySize x ys else x :: y :: ys

/-- Ascending stable sort by group size (the source uses the stable
`Array.prototype.sort` with comparator `a.length - b.length`; a stable sort
induced by a total size comparison is unique, and this insertion sort
computes it). -/
def sortGroupsBySize (groups : List (String × List Exam)) :
    List (String × List Exam) :=
  groups.foldr insertBySize []

def scheduleMajorSubjects (exams : List Exam) (allRooms : List String)
    (matrix : ConflictMatrix) (numDays : Nat) (rs : RunSt) : PhaseAcc :=
  let sortedGroups := sortGroupsBySize (groupExamsBySubject exams)
  foldGroups (gridCells numDays) allRooms matrix sortedGroups (rs, 0, [])

/-! ### Phase 4: individual scheduling (relaxed) -/

/-- The body of the phase-4 scan at a single cell. -/
def indivCellStep (e : Exam) (day slot : Nat) (allRooms : List String)
    (matrix : ConflictMatrix) (rs : RunSt) : RunSt × Bool :=
  if hasConflict e day slot rs.state matrix then (rs, false)
  else
    match getAvailableRooms e day slot allRooms rs.state (is6UnitSubject e) with
    | [] => (rs, false)
    | room :: _ =>
        if is6UnitSubject e then schedule6UnitExam e day slot room rs
        else (scheduleExam e day slot room false rs, true)

def tryExamCells (e : Exam) (cells : List (Nat × Nat))
    (allRooms : List String) (matrix : ConflictMatrix) (rs : RunSt) :
    RunSt × Bool :=
  match cells with
  | [] => (rs, false)
  | (d, s) :: rest =>
      match indivCellStep e d s allRooms matrix rs with
      | (rs1, true) => (rs1, true)
      | (rs1, false) => tryExamCells e rest allRooms matrix rs1

def scheduleIndividually (exams : List Exam) (allRooms : List String)
    (matrix : ConflictMatrix) (numDays : Nat) (rs : RunSt) : RunSt × Nat :=
  exams.foldl (fun a e =>
    match tryExamCells e (gridCells numDays) allRooms matrix a.1 with
    | (rs1, true) => (rs1, a.2 + 1)
    | (rs1, false) => (rs1, a.2)) (rs, 0)

/-! ### Main algorithm entry point -/

def isEligibleDept (e : Exam) : Bool := strUpper e.dept != "SAS"

/-- The four scheduling phases run over the already-filtered eligible
sections, returning the final threaded state. -/
def runEligible (eligible : List Exam) (rooms : List String)
    (numDays : Nat) : RunSt :=
  let matrix := buildConflictMatrix eligible
  let genEds := eligible.filter (fun e => isGenEdSubject e.subjectId)
  let mathSubjects := eligible.filter isMathSubject
  let archSubjects := eligible.filter (fun e => isArchSubject e.subjectId)
  let majorSubjects := eligible.filter (fun e =>
    !isGenEdSubject e.subjectId && !isMathSubject e && !isArchSubject e.subjectId)
  let p1 := scheduleGenEdTimeBlocks genEds rooms matrix numDays emptyRun
  let p2 := scheduleHighPriority (mathSubjects ++ archSubjects) rooms matrix
    numDays p1.1
  let p3 := scheduleMajorSubjects majorSubjects rooms matrix numDays p2.1
  let p4 := scheduleIndividually (p1.2.2 ++ p2.2.2 ++ p3.2.2) rooms matrix
    numDays p3.1
  p4.1

/-- The final state of a full run (SAS-department sections are filtered out
up front). -/
def runSchedule (exams : List Exam) (rooms : List String)
    (numDays : Nat) : RunSt :=
  runEligible (exams.filter isEligibleDept) rooms numDays

def generateExamSchedule (exams : List Exam) (rooms : List String)
    (numDays : Nat) : List ScheduledExam :=
  (runSchedule exams rooms numDays).out.map Prod.snd

/-! ## Basic lemmas about the association-list primitives -/

theorem alookup_mapSet_self {β : Type} (m : List (String × β)) (k : String)
    (v : β) : alookup (mapSet m k v) k = some v := by
  induction m with
  | nil => simp [mapSet, alookup]
  | cons hd tl ih =>
      by_cases h : hd.1 = k <;> simp [mapSet, alookup, h, ih]

theorem alookup_mapSet_ne {β : Type} (m : List (String × β)) (k k1 : String)
    (v : β) (h : k1 ≠ k) : alookup (mapSet m k v) k1 = alookup m k1 := by
  have hk : ¬ k = k1 := fun h1 => h h1.symm
  induction m with
  | nil => simp [mapSet, alookup, hk]
  | cons hd tl ih =>
      obtain ⟨a, b⟩ := hd
      by_cases h2 : a = k
      · subst h2
        simp [mapSet, alookup, hk]
      · by_cases h3 : a = k1 <;> simp [mapSet, alookup, h2, h3, h, ih]

theorem mem_mapSet {β : Type} {m : List (String × β)} {k : String} {v : β}
    {kv : String × β} (h : kv ∈ mapSet m k v) : kv = (k, v) ∨ kv ∈ m := by
  induction m with
  | nil =>
      simp only [mapSet, List.mem_singleton] at h
      exact Or.inl h
  | cons hd tl ih =>
      obtain ⟨a, b⟩ := hd
      by_cases h2 : a = k
      · simp only [mapSet, h2, if_pos, List.mem_cons] at h
        rcases h with h | h
        · exact Or.inl h
        · exact Or.inr (List.mem_cons_of_mem _ h)
      · simp only [mapSet, h2, if_neg, not_false_iff, List.mem_cons] at h
        rcases h with h | h
        · exact Or.inr (by simp [h])
        · rcases ih h with h1 | h1
          · exact Or.inl h1
          · exact Or.inr (List.mem_cons_of_mem _ h1)

theorem mapSet_keys {β : Type} (m : List (String × β)) (k : String) (v : β) :
    (mapSet m k v).map Prod.fst =
      if k ∈ m.map Prod.fst then m.map Prod.fst else m.map Prod.fst ++ [k] := by
  induction m with
  | nil => simp [mapSet]
  | cons hd tl ih =>
      obtain ⟨a, b⟩ := hd
      by_cases h : a = k
      · simp [mapSet, h]
      · by_cases h2 : k ∈ tl.map Prod.fst <;>
          simp [mapSet, h, ih, h2, Ne.symm h]

theorem mapSet_keys_nodup {β : Type} {m : List (String × β)} (k : String)
    (v : β) (h : (m.map Prod.fst).Nodup) :
    ((mapSet m k v).map Prod.fst).Nodup := by
  rw [mapSet_keys]
  by_cases h2 : k ∈ m.map Prod.fst
  · simp only [h2, if_pos]
    exact h
  · simp [h2, List.nodup_append, h]

/-! ## Basic facts about labels -/

theorem timeSlot_succ_ne : ∀ s : Nat, s < 7 → timeSlot s ≠ timeSlot (s + 1) := by
  decide

theorem strAppend_left_cancel {a b c : String} (h : a ++ b = a ++ c) :
    b = c := by
  apply String.ext
  have h2 := congrArg String.data h
  simpa [String.data_append] using h2

/-! ## Unfolding lemmas for the scheduling operations -/

theorem schedule6UnitExam_of_lt {e : Exam} {day slot : Nat} {room : String}
    {rs : RunSt} (h : slot < 7) :
    schedule6UnitExam e day slot room rs =
      (scheduleExam e day (slot + 1) room true
        (scheduleExam e day slot room false rs), true) := by
  have h2 : ¬ TIME_SLOTS.length - 1 ≤ slot := by
    simp only [TIME_SLOTS, List.length]
    omega
  simp [schedule6UnitExam, h2]

theorem schedule6UnitExam_of_ge {e : Exam} {day slot : Nat} {room : String}
    {rs : RunSt} (h : 7 ≤ slot) :
    schedule6UnitExam e day slot room rs = (rs, false) := by
  have h2 : TIME_SLOTS.length - 1 ≤ slot := by
    simp only [TIME_SLOTS, List.length]
    omega
  simp [schedule6UnitExam, h2]

theorem scheduleGroupLoop_true_of_lt (pairs : List (Exam × String))
    (day : Nat) {slot : Nat} (rs : RunSt) (h : slot < 7) :
    (scheduleGroupLoop pairs day slot rs).2 = true := by
  induction pairs generalizing rs with
  | nil => simp [scheduleGroupLoop]
  | cons hd tl ih =>
      obtain ⟨e, room⟩ := hd
      by_cases h6 : is6UnitSubject e
      · simp only [scheduleGroupLoop, h6, if_pos, schedule6UnitExam_of_lt h]
        exact ih _
      · simp only [scheduleGroupLoop, h6, if_neg, Bool.false_eq_true,
          not_false_iff]
        exact ih _

/-! ## Concrete sections used by witnesses and counterexamples -/

/-- A concrete section builder (the fields not listed never influence a
scheduling decision). -/
def mkExam (code subj course dept : String) (yr lec : Nat) : Exam :=
  { code := code, subjectId := subj, title := "T", course := course,
    yearLevel := yr, instructor := "I", dept := dept, oe := "", lec := lec,
    studentCount := 10, isRegular := true, lectureRoom := "" }

/-! ## C1: atomicity of a failing group placement -/

def c1SecA : Exam := mkExam "S1" "SUBJ1" "X" "DDD" 1 3
def c1SecB : Exam := mkExam "S2" "SUBJ1" "X" "DDD" 1 6
def c1SecW : Exam := mkExam "W1" "WSUBJ" "X" "DDD" 1 3

/-- C1 counterexample: at the last slot of a day, a group that mixes a
3-unit section with a 6-unit section passes the conflict and room-count
checks, commits the 3-unit section, then fails on the 6-unit section (which
needs a following slot); `tryScheduleGroup` returns `false`, yet the
committed room claim and the emitted `ScheduledExam` record survive. -/
theorem tryScheduleGroup_partial_commit :
    (tryScheduleGroup [c1SecA, c1SecB] 0 7 ["A-1", "A-2"] [] emptyRun).2
      = false ∧
    (tryScheduleGroup [c1SecA, c1SecB] 0 7 ["A-1", "A-2"] [] emptyRun).1.out.map
      Prod.fst = ["S1-6:00-7:30"] ∧
    (tryScheduleGroup [c1SecA, c1SecB] 0 7 ["A-1", "A-2"] [] emptyRun).1.state.roomUsage
      = [("Day 1", "6:00-7:30", "A-1")] ∧
    (tryScheduleGroup [c1SecA, c1SecB] 0 7 ["A-1", "A-2"] [] emptyRun).1
      ≠ emptyRun := by
  refine ⟨by decide, by decide, by decide, by decide⟩

/-- C1 (amended): whenever the target slot is not the last slot of a day
(slot index below 7), a `tryScheduleGroup` call that returns `false` leaves
the scheduling ledger and the output accumulator exactly as they were; at
the last slot a group mixing 6-unit and non-6-unit sections can partially
commit before failing. -/
theorem tryScheduleGroup_fail_unchanged (examGroup : List Exam)
    (day slot : Nat) (allRooms : List String) (matrix : ConflictMatrix)
    (rs : RunSt) (hs : slot < 7)
    (hf : (tryScheduleGroup examGroup day slot allRooms matrix rs).2 = false) :
    (tryScheduleGroup examGroup day slot allRooms matrix rs).1 = rs := by
  cases examGroup with
  | nil => simp [tryScheduleGroup] at hf
  | cons e0 tl =>
      by_cases hc :
          (hasConflict e0 day slot rs.state matrix ||
            tl.any fun e => hasConflict e day slot rs.state matrix) = true
      · simp [tryScheduleGroup, hc]
      · by_cases hr :
            (getAvailableRooms e0 day slot allRooms rs.state
              (is6UnitSubject e0 || tl.any is6UnitSubject)).length < tl.length + 1
        · simp [tryScheduleGroup, hc, hr]
        · exfalso
          have h2 := scheduleGroupLoop_true_of_lt
            ((e0 :: tl).zip (getAvailableRooms e0 day slot allRooms rs.state
              (is6UnitSubject e0 || tl.any is6UnitSubject))) day rs hs
          simp only [tryScheduleGroup, List.any_cons, List.length_cons, hc,
            hr, if_neg, Bool.not_eq_true, not_false_iff, if_false] at hf
          rw [hf] at h2
          exact Bool.false_ne_true h2

/-- C1 witness: a concrete failing call (no rooms offered) at a non-final
slot leaves the state untouched. -/
theorem tryScheduleGroup_fail_unchanged_inst :
    (tryScheduleGroup [c1SecW] 0 0 [] [] emptyRun).1 = emptyRun :=
  tryScheduleGroup_fail_unchanged [c1SecW] 0 0 [] [] emptyRun
    (by decide) (by decide)

/-! ## C2: conflict-freedom of the final output -/

/-- The output-level conflict-freedom property claimed by the spec: no two
output entries that share a (day, slot) belong to subjects marked as mutual
conflicts under some course-year key of the conflict matrix built for the
run. -/
def scheduleConflictFree (exams : List Exam) (rooms : List String)
    (numDays : Nat) : Prop :=
  ∀ s1 ∈ generateExamSchedule exams rooms numDays,
    ∀ s2 ∈ generateExamSchedule exams rooms numDays,
      ∀ k ∈ (buildConflictMatrix (exams.filter isEligibleDept)).map Prod.fst,
        s1.DAY = s2.DAY → s1.SLOT = s2.SLOT →
        ¬((mtxGet (buildConflictMatrix (exams.filter isEligibleDept)) k
              (normSubj s1.SUBJECT_ID)).contains (normSubj s2.SUBJECT_ID)
            = true ∧
          (mtxGet (buildConflictMatrix (exams.filter isEligibleDept)) k
              (normSubj s2.SUBJECT_ID)).contains (normSubj s1.SUBJECT_ID)
            = true)

def c2SecMathArch : Exam := mkExam "M1" "MATHARCH1" "X" "SACE" 1 3
def c2SecMajor : Exam := mkExam "B1" "BBB1" "X" "ZZZZ" 1 3

/-- C2 counterexample: the subject MATHARCH1 is classified both as
mathematics and as architecture, so phase 2 schedules it twice (first at
Day 1 slot 1, then again at Day 1 slot 2 because its building-C rooms are
exhausted at slot 1); only the latest placement is retained in the
subject-placement ledger, so the conflicting subject BBB1 is later allowed
into Day 1 slot 1, where the stale MATHARCH1 entry still sits in the
output. -/
theorem generateExamSchedule_conflict_collision :
    ¬ scheduleConflictFree [c2SecMathArch, c2SecMajor] ["C-1", "C-2", "A-1"] 1 := by
  unfold scheduleConflictFree
  decide

/-- Elimination form of a negative conflict check: no conflicting subject
of `e` (under `e`'s own course-year key) has its most recent recorded
placement at the probed (day, slot). -/
theorem hasConflict_false_elim {e : Exam} {day slot : Nat}
    {st : SchedulingState} {matrix : ConflictMatrix}
    (h : hasConflict e day slot st matrix = false)
    (hv : examValidCY e = true) :
    ∀ b ∈ mtxGet matrix (courseYearKeyOf e) (normSubj e.subjectId),
      ∀ p, alookup st.subjectScheduled b = some p →
        ¬(p.day = dayLabel day ∧ p.slot = timeSlot slot) := by
  intro b hb p hp hcontra
  have hc : (e.course == "") = false ∧ (e.yearLevel == 0) = false := by
    constructor <;>
      (by_cases h1 : e.course = "" <;> by_cases h2 : e.yearLevel = 0 <;>
        simp [examValidCY, h1, h2] at hv ⊢)
  simp only [hasConflict, hc.1, hc.2, Bool.or_self, Bool.false_eq_true,
    if_false, List.any_eq_false] at h
  have h2 := h b hb
  rw [hp] at h2
  exact h2 (by simp [hcontra.1, hcontra.2])

/-- C2 (amended): a successful group placement at (day, slot) only happens
when, at call time, no member of the group conflicts there: for each member
with a course and year level, no subject marked as conflicting with it
under its own course-year key has its most recent recorded subject
placement at that (day, slot).  (The output-level property fails, because
stale entries of a subject that is placed more than once are never
re-checked.) -/
theorem tryScheduleGroup_success_no_current_conflict (examGroup : List Exam)
    (day slot : Nat) (allRooms : List String) (matrix : ConflictMatrix)
    (rs : RunSt) (e : Exam)
    (hs : (tryScheduleGroup examGroup day slot allRooms matrix rs).2 = true)
    (he : e ∈ examGroup) :
    hasConflict e day slot rs.state matrix = false ∧
    (examValidCY e = true →
      ∀ b ∈ mtxGet matrix (courseYearKeyOf e) (normSubj e.subjectId),
        ∀ p, alookup rs.state.subjectScheduled b = some p →
          ¬(p.day = dayLabel day ∧ p.slot = timeSlot slot)) := by
  have h1 : hasConflict e day slot rs.state matrix = false := by
    cases examGroup with
    | nil => simp at he
    | cons e0 tl =>
        by_cases hc :
            (hasConflict e0 day slot rs.state matrix ||
              tl.any fun x => hasConflict x day slot rs.state matrix) = true
        · rw [show tryScheduleGroup (e0 :: tl) day slot allRooms matrix rs
              = (rs, false) by simp [tryScheduleGroup, hc]] at hs
          simp at hs
        · have hall : ∀ x ∈ e0 :: tl,
              hasConflict x day slot rs.state matrix = false := by
            intro x hx
            rcases List.mem_cons.mp hx with h | h
            · subst h
              revert hc
              by_cases hh : hasConflict x day slot rs.state matrix <;> simp [hh]
            · revert hc
              by_cases hh : hasConflict x day slot rs.state matrix
              · intro hc
                exfalso
                exact hc (by simp [List.any_eq_true]; exact Or.inr ⟨x, h, hh⟩)
              · intro _
                simpa using hh
          exact hall e he
  exact ⟨h1, fun hv => hasConflict_false_elim h1 hv⟩

def c2SecW : Exam := mkExam "W2" "WSUBJ2" "X" "DDD" 1 3

/-- C2 witness: a concrete successful placement, instantiating the amended
theorem. -/
theorem tryScheduleGroup_success_no_current_conflict_inst :
    hasConflict c2SecW 0 0 emptyRun.state [] = false :=
  (tryScheduleGroup_success_no_current_conflict [c2SecW] 0 0 ["A-1"] []
    emptyRun c2SecW (by decide) (by decide)).1

/-! ## C4: double-slot contiguity -/

/-- Whether two slot labels are consecutive in the daily grid (in either
order). -/
def slotsConsecutive (a b : String) : Bool :=
  (List.range (TIME_SLOTS.length - 1)).any (fun i =>
    (a == timeSlot i && b == timeSlot (i + 1)) ||
    (b == timeSlot i && a == timeSlot (i + 1)))

/-- The per-section double-slot pairing property claimed by the spec: every
scheduled 6-unit section has exactly two output entries, on one day, in one
room, at consecutive slots. -/
def doubleUnitPaired (exams : List Exam) (rooms : List String)
    (numDays : Nat) : Prop :=
  ∀ x ∈ exams, is6UnitSubject x = true →
    (∃ s ∈ generateExamSchedule exams rooms numDays, s.CODE = x.code) →
    ((generateExamSchedule exams rooms numDays).filter
        (fun s => s.CODE == x.code)).length = 2 ∧
    ∀ s1 ∈ (generateExamSchedule exams rooms numDays).filter
        (fun s => s.CODE == x.code),
      ∀ s2 ∈ (generateExamSchedule exams rooms numDays).filter
        (fun s => s.CODE == x.code),
        s1.DAY = s2.DAY ∧ s1.ROOM = s2.ROOM ∧
        (s1 = s2 ∨ slotsConsecutive s1.SLOT s2.SLOT = true)

def c4SixUnit : Exam := mkExam "M1" "MATHARCH1" "X" "SACE" 1 6

/-- C4 counterexample: a 6-unit subject that is both mathematics and
architecture is placed twice by phase 2 (once per category pass), leaving
four output entries for the one section (slots 1-4 of Day 1), so the
two-entry pairing property fails for it. -/
theorem doubleUnit_four_entries :
    ¬ doubleUnitPaired [c4SixUnit] ["C-1", "C-2"] 1 := by
  unfold doubleUnitPaired
  decide

/-- Keys built from distinct slot labels are distinct. -/
theorem slotKey_ne (c : String) {a b : String} (h : a ≠ b) :
    c ++ "-" ++ a ≠ c ++ "-" ++ b := by
  intro hcontra
  exact h (strAppend_left_cancel (a := c ++ "-") hcontra)

theorem scheduleExam_out (e : Exam) (day slot : Nat) (room : String)
    (sec : Bool) (rs : RunSt) :
    (scheduleExam e day slot room sec rs).out =
      mapSet rs.out (e.code ++ "-" ++ timeSlot slot)
        (mkScheduledExam e (dayLabel day) (timeSlot slot) room) := by
  cases sec <;> simp [scheduleExam]

theorem scheduleExam_roomUsage (e : Exam) (day slot : Nat) (room : String)
    (sec : Bool) (rs : RunSt) :
    (scheduleExam e day slot room sec rs).state.roomUsage =
      (dayLabel day, timeSlot slot, room) :: rs.state.roomUsage := by
  cases sec <;> simp [scheduleExam]

theorem scheduleExam_subj_first (e : Exam) (day slot : Nat) (room : String)
    (rs : RunSt) :
    (scheduleExam e day slot room false rs).state.subjectScheduled =
      mapSet rs.state.subjectScheduled (normSubj e.subjectId)
        ⟨dayLabel day, timeSlot slot⟩ := by
  simp [scheduleExam]

theorem scheduleExam_subj_second (e : Exam) (day slot : Nat) (room : String)
    (rs : RunSt) :
    (scheduleExam e day slot room true rs).state.subjectScheduled =
      rs.state.subjectScheduled := by
  simp [scheduleExam]

theorem slotsConsecutive_succ : ∀ s : Nat, s < 7 →
    slotsConsecutive (timeSlot s) (timeSlot (s + 1)) = true := by
  decide

/-- C4 (amended): every successful double-slot placement call emits, for the
section, an entry at the target slot and an entry at the following slot of
the same day, both carrying the same room; a section placed more than once
(possible when its subject is classified both mathematics and architecture)
accumulates further entries, so the global two-entry form of the property
fails. -/
theorem schedule6UnitExam_success_pair (e : Exam) (day slot : Nat)
    (room : String) (rs : RunSt)
    (h : (schedule6UnitExam e day slot room rs).2 = true) :
    ∃ s1 s2 : ScheduledExam,
      alookup (schedule6UnitExam e day slot room rs).1.out
        (e.code ++ "-" ++ timeSlot slot) = some s1 ∧
      alookup (schedule6UnitExam e day slot room rs).1.out
        (e.code ++ "-" ++ timeSlot (slot + 1)) = some s2 ∧
      s1.DAY = dayLabel day ∧ s2.DAY = dayLabel day ∧
      s1.ROOM = room ∧ s2.ROOM = room ∧
      s1.SLOT = timeSlot slot ∧ s2.SLOT = timeSlot (slot + 1) ∧
      slotsConsecutive s1.SLOT s2.SLOT = true := by
  have hlt : slot < 7 := by
    by_contra hge
    rw [schedule6UnitExam_of_ge (Nat.le_of_not_lt hge)] at h
    simp at h
  refine ⟨mkScheduledExam e (dayLabel day) (timeSlot slot) room,
    mkScheduledExam e (dayLabel day) (timeSlot (slot + 1)) room,
    ?_, ?_, rfl, rfl, rfl, rfl, rfl, rfl, slotsConsecutive_succ slot hlt⟩
  · rw [schedule6UnitExam_of_lt hlt]
    show alookup (scheduleExam e day (slot + 1) room true
      (scheduleExam e day slot room false rs)).out _ = _
    rw [scheduleExam_out, scheduleExam_out,
      alookup_mapSet_ne _ _ _ _ (slotKey_ne e.code (timeSlot_succ_ne slot hlt)),
      alookup_mapSet_self]
  · rw [schedule6UnitExam_of_lt hlt]
    show alookup (scheduleExam e day (slot + 1) room true
      (scheduleExam e day slot room false rs)).out _ = _
    rw [scheduleExam_out, alookup_mapSet_self]

def c4SecW : Exam := mkExam "W4" "WSUBJ4" "X" "DDD" 1 6

/-- C4 witness: the amended theorem applied to a concrete successful
double-slot placement. -/
theorem schedule6UnitExam_success_pair_inst :
    ∃ s1 s2 : ScheduledExam,
      alookup (schedule6UnitExam c4SecW 0 0 "A-1" emptyRun).1.out
        (c4SecW.code ++ "-" ++ timeSlot 0) = some s1 ∧
      alookup (schedule6UnitExam c4SecW 0 0 "A-1" emptyRun).1.out
        (c4SecW.code ++ "-" ++ timeSlot 1) = some s2 ∧
      s1.DAY = dayLabel 0 ∧ s2.DAY = dayLabel 0 ∧
      s1.ROOM = "A-1" ∧ s2.ROOM = "A-1" ∧
      s1.SLOT = timeSlot 0 ∧ s2.SLOT = timeSlot 1 ∧
      slotsConsecutive s1.SLOT s2.SLOT = true :=
  schedule6UnitExam_success_pair c4SecW 0 0 "A-1" emptyRun (by decide)

/-! ## C7: priority tiers -/

def c7Math : Exam := mkExam "P1" "MATH101" "X" "SACE" 1 3
def c7Arch : Exam := mkExam "P2" "ARCH201" "X" "DDD" 1 3

/-- C7: `calculatePriority` checks the tiers in the precedence order
general-education, then mathematics (MATH prefix and department exactly
SACE), then architecture (ARCH anywhere in the identifier), then major, and
the tier weights 100000, 50000, 40000, 10000 are strictly descending in
that order. -/
theorem calculatePriority_tier_order :
    (∀ e : Exam, isGenEdSubject e.subjectId = true →
      calculatePriority e = PRIORITY_GEN_ED) ∧
    (∀ e : Exam, isGenEdSubject e.subjectId = false →
      isMathSubject e = true → calculatePriority e = PRIORITY_MATH) ∧
    (∀ e : Exam, isGenEdSubject e.subjectId = false →
      isMathSubject e = false → isArchSubject e.subjectId = true →
      calculatePriority e = PRIORITY_ARCH) ∧
    (∀ e : Exam, isGenEdSubject e.subjectId = false →
      isMathSubject e = false → isArchSubject e.subjectId = false →
      calculatePriority e = PRIORITY_MAJOR) ∧
    (∀ e : Exam, isMathSubject e =
      (strStarts (strUpper e.subjectId) "MATH" && strUpper e.dept == "SACE")) ∧
    (∀ s : String, isArchSubject s = strIncludes (strUpper s) "ARCH") ∧
    PRIORITY_GEN_ED = 100000 ∧ PRIORITY_MATH = 50000 ∧
    PRIORITY_ARCH = 40000 ∧ PRIORITY_MAJOR = 10000 ∧
    PRIORITY_MATH < PRIORITY_GEN_ED ∧ PRIORITY_ARCH < PRIORITY_MATH ∧
    PRIORITY_MAJOR < PRIORITY_ARCH := by
  refine ⟨fun e h => by simp [calculatePriority, h],
    fun e h1 h2 => by simp [calculatePriority, h1, h2],
    fun e h1 h2 h3 => by simp [calculatePriority, h1, h2, h3],
    fun e h1 h2 h3 => by simp [calculatePriority, h1, h2, h3],
    fun e => rfl, fun s => rfl, rfl, rfl, rfl, rfl,
    by decide, by decide, by decide⟩

/-- C7 witness: the tier theorem applied to a concrete mathematics section
and a concrete architecture section. -/
theorem calculatePriority_tier_order_inst :
    calculatePriority c7Math = 50000 ∧ calculatePriority c7Arch = 40000 :=
  ⟨(calculatePriority_tier_order.2.1 c7Math (by decide) (by decide)).trans rfl,
   (calculatePriority_tier_order.2.2.1 c7Arch (by decide) (by decide)
     (by decide)).trans rfl⟩

/-! ## C8: sections with a missing course or year level -/

/-- C8: a section whose course or year level is missing is silently
excluded from conflict computation: inserting it anywhere in the input
leaves the conflict matrix unchanged, and `hasConflict` answers `false` for
it at every (day, slot) and every ledger state. -/
theorem invalid_section_excluded (e : Exam)
    (h : e.course = "" ∨ e.yearLevel = 0) :
    (∀ l1 l2 : List Exam,
      buildConflictMatrix (l1 ++ e :: l2) = buildConflictMatrix (l1 ++ l2)) ∧
    (∀ (day slot : Nat) (st : SchedulingState) (matrix : ConflictMatrix),
      hasConflict e day slot st matrix = false) := by
  have hv : examValidCY e = false := by
    rcases h with h | h <;> simp [examValidCY, h]
  constructor
  · intro l1 l2
    unfold buildConflictMatrix groupByCourseYear groupByKey
    rw [List.foldl_append, List.foldl_append, List.foldl_cons, hv]
    simp
  · intro day slot st matrix
    rcases h with h | h <;> simp [hasConflict, h]

def c8Bad : Exam := mkExam "I1" "ISUBJ" "" "DDD" 0 3

/-- C8 witness: the exclusion theorem applied to a concrete section with a
missing course. -/
theorem invalid_section_excluded_inst :
    buildConflictMatrix [c8Bad] = buildConflictMatrix [] ∧
    hasConflict c8Bad 0 0 emptyState [] = false := by
  constructor
  · have h := (invalid_section_excluded c8Bad (Or.inl rfl)).1 [] []
    simpa using h
  · exact (invalid_section_excluded c8Bad (Or.inl rfl)).2 0 0 emptyState []

/-! ## Membership lemmas for the grouping combinators -/

theorem mem_multiAdd_members {α : Type} (Q : α → Prop) :
    ∀ (m : List (String × List α)) (k : String) (y : α),
      (∀ kg ∈ m, ∀ x ∈ kg.2, Q x) → Q y →
      ∀ kg ∈ multiAdd m k y, ∀ x ∈ kg.2, Q x := by
  intro m
  induction m with
  | nil =>
      intro k y _ hy kg hkg x hx
      simp only [multiAdd, List.mem_singleton] at hkg
      subst hkg
      simp only [List.mem_singleton] at hx
      subst hx
      exact hy
  | cons hd tl ih =>
      intro k y hm hy kg hkg x hx
      obtain ⟨a, xs⟩ := hd
      by_cases h : a = k
      · simp only [multiAdd, h, if_pos, List.mem_cons] at hkg
        rcases hkg with hkg | hkg
        · subst hkg
          simp only [List.mem_append, List.mem_singleton] at hx
          rcases hx with hx | hx
          · exact hm (a, xs) (List.mem_cons_self _ _) x hx
          · subst hx
            exact hy
        · exact hm kg (List.mem_cons_of_mem _ hkg) x hx
      · simp only [multiAdd, h, if_neg, not_false_iff, List.mem_cons] at hkg
        rcases hkg with hkg | hkg
        · subst hkg
          exact hm (a, xs) (List.mem_cons_self _ _) x hx
        · exact ih k y (fun kg2 hkg2 => hm kg2 (List.mem_cons_of_mem _ hkg2))
            hy kg hkg x hx

theorem groupByKey_members {α : Type} (key : α → String) (valid : α → Bool)
    (Q : α → Prop) :
    ∀ (xs : List α) (m : List (String × List α)),
      (∀ kg ∈ m, ∀ x ∈ kg.2, Q x) → (∀ x ∈ xs, Q x) →
      ∀ kg ∈ xs.foldl
        (fun m x => if valid x then multiAdd m (key x) x else m) m,
        ∀ x ∈ kg.2, Q x := by
  intro xs
  induction xs with
  | nil =>
      intro m hm _ kg hkg
      exact hm kg hkg
  | cons hd tl ih =>
      intro m hm hxs
      rw [List.foldl_cons]
      by_cases h : valid hd = true
      · rw [if_pos h]
        exact ih _ (mem_multiAdd_members Q m (key hd) hd hm
          (hxs hd (List.mem_cons_self _ _)))
          (fun x hx => hxs x (List.mem_cons_of_mem _ hx))
      · rw [if_neg (by simpa using h)]
        exact ih m hm (fun x hx => hxs x (List.mem_cons_of_mem _ hx))

/-- Every member of a group produced by `groupByKey` comes from the input
list. -/
theorem mem_of_groupByKey {α : Type} {key : α → String} {valid : α → Bool}
    {xs : List α} {kg : String × List α} (hkg : kg ∈ groupByKey key valid xs)
    {x : α} (hx : x ∈ kg.2) : x ∈ xs :=
  groupByKey_members key valid (fun y => y ∈ xs) xs [] (by simp)
    (fun y hy => hy) kg hkg x hx

theorem mem_insertBySize {x kg : String × List Exam} :
    ∀ {l : List (String × List Exam)},
      kg ∈ insertBySize x l ↔ kg = x ∨ kg ∈ l := by
  intro l
  induction l with
  | nil => simp [insertBySize]
  | cons hd tl ih =>
      by_cases h : hd.2.length < x.2.length
      · simp only [insertBySize, h, if_pos, List.mem_cons, ih]
        try tauto
      · simp only [insertBySize, h, if_neg, not_false_iff, List.mem_cons]
        try tauto

theorem mem_sortGroupsBySize {groups : List (String × List Exam)}
    {kg : String × List Exam} :
    kg ∈ sortGroupsBySize groups ↔ kg ∈ groups := by
  unfold sortGroupsBySize
  induction groups with
  | nil => simp
  | cons hd tl ih =>
      rw [List.foldr_cons, mem_insertBySize]
      simp [ih]

/-! ## The preservation framework -/

/-- A predicate on the threaded run state that every primitive placement
step of the pipeline preserves, when group members and individually placed
sections come from `pool`. -/
def StepClosed (P : RunSt → Prop) (pool : List Exam) (rooms : List String)
    (matrix : ConflictMatrix) : Prop :=
  (∀ (grp : List Exam) (day slot : Nat) (rs : RunSt),
    (∀ e ∈ grp, e ∈ pool) → P rs →
    P (tryScheduleGroup grp day slot rooms matrix rs).1) ∧
  (∀ (e : Exam) (day slot : Nat) (rs : RunSt), e ∈ pool → P rs →
    P (indivCellStep e day slot rooms matrix rs).1)

theorem tryGroupCells_pres {P : RunSt → Prop} {pool : List Exam}
    {rooms : List String} {matrix : ConflictMatrix}
    (hP : StepClosed P pool rooms matrix) {grp : List Exam}
    (hgrp : ∀ e ∈ grp, e ∈ pool) :
    ∀ (cells : List (Nat × Nat)) (rs : RunSt), P rs →
      P (tryGroupCells grp cells rooms matrix rs).1 := by
  intro cells
  induction cells with
  | nil =>
      intro rs h
      simpa [tryGroupCells] using h
  | cons c rest ih =>
      intro rs h
      obtain ⟨d, s⟩ := c
      have h1 : P (tryScheduleGroup grp d s rooms matrix rs).1 :=
        hP.1 grp d s rs hgrp h
      simp only [tryGroupCells]
      cases htry : tryScheduleGroup grp d s rooms matrix rs with
      | mk rs1 ok =>
          rw [htry] at h1
          cases ok
          · exact ih rs1 h1
          · exact h1

theorem tryExamCells_pres {P : RunSt → Prop} {pool : List Exam}
    {rooms : List String} {matrix : ConflictMatrix}
    (hP : StepClosed P pool rooms matrix) {e : Exam} (he : e ∈ pool) :
    ∀ (cells : List (Nat × Nat)) (rs : RunSt), P rs →
      P (tryExamCells e cells rooms matrix rs).1 := by
  intro cells
  induction cells with
  | nil =>
      intro rs h
      simpa [tryExamCells] using h
  | cons c rest ih =>
      intro rs h
      obtain ⟨d, s⟩ := c
      have h1 : P (indivCellStep e d s rooms matrix rs).1 :=
        hP.2 e d s rs he h
      simp only [tryExamCells]
      cases htry : indivCellStep e d s rooms matrix rs with
      | mk rs1 ok =>
          rw [htry] at h1
          cases ok
          · exact ih rs1 h1
          · exact h1

theorem foldGroups_pres {P : RunSt → Prop} {pool : List Exam}
    {rooms : List String} {matrix : ConflictMatrix}
    (hP : StepClosed P pool rooms matrix) (cells : List (Nat × Nat)) :
    ∀ (groups : List (String × List Exam)) (acc : PhaseAcc),
      (∀ kg ∈ groups, ∀ e ∈ kg.2, e ∈ pool) →
      P acc.1 → (∀ e ∈ acc.2.2, e ∈ pool) →
      P (foldGroups cells rooms matrix groups acc).1 ∧
      (∀ e ∈ (foldGroups cells rooms matrix groups acc).2.2, e ∈ pool) := by
  intro groups
  induction groups with
  | nil =>
      intro acc _ h1 h2
      exact ⟨by simpa [foldGroups] using h1, by simpa [foldGroups] using h2⟩
  | cons kg rest ih =>
      intro acc hg h1 h2
      have hkg : ∀ e ∈ kg.2, e ∈ pool := hg kg (List.mem_cons_self _ _)
      have hrest : ∀ kg2 ∈ rest, ∀ e ∈ kg2.2, e ∈ pool :=
        fun kg2 hkg2 => hg kg2 (List.mem_cons_of_mem _ hkg2)
      have hcell : P (tryGroupCells kg.2 cells rooms matrix acc.1).1 :=
        tryGroupCells_pres hP hkg cells acc.1 h1
      rw [show foldGroups cells rooms matrix (kg :: rest) acc =
        foldGroups cells rooms matrix rest
          (match tryGroupCells kg.2 cells rooms matrix acc.1 with
            | (rs1, true) => (rs1, acc.2.1 + kg.2.length, acc.2.2)
            | (rs1, false) => (rs1, acc.2.1, acc.2.2 ++ kg.2)) from by
        simp [foldGroups]]
      cases htry : tryGroupCells kg.2 cells rooms matrix acc.1 with
      | mk rs1 ok =>
          rw [htry] at hcell
          cases ok
          · exact ih _ hrest hcell (by
              intro e he
              simp only [List.mem_append] at he
              rcases he with he | he
              · exact h2 e he
              · exact hkg e he)
          · exact ih _ hrest hcell h2

theorem genEdTypeStep_pres {P : RunSt → Prop} {pool : List Exam}
    {rooms : List String} {matrix : ConflictMatrix}
    (hP : StepClosed P pool rooms matrix) (numDays : Nat)
    (kg : String × List Exam) (hkg : ∀ e ∈ kg.2, e ∈ pool) (acc : PhaseAcc)
    (h1 : P acc.1) (h2 : ∀ e ∈ acc.2.2, e ∈ pool) :
    P (genEdTypeStep rooms matrix numDays acc kg).1 ∧
    (∀ e ∈ (genEdTypeStep rooms matrix numDays acc kg).2.2, e ∈ pool) := by
  have hgrps : ∀ kg2 ∈ groupExamsBySubject kg.2, ∀ e ∈ kg2.2, e ∈ pool :=
    fun kg2 hkg2 e he => hkg e (mem_of_groupByKey hkg2 he)
  unfold genEdTypeStep
  by_cases hb : (genEdBlocks kg.1).isEmpty
  · rw [if_pos hb]
    exact foldGroups_pres hP _ _ acc hgrps h1 h2
  · rw [if_neg hb]
    exact foldGroups_pres hP _ _ acc hgrps h1 h2

theorem scheduleGenEdTimeBlocks_pres {P : RunSt → Prop} {pool : List Exam}
    {rooms : List String} {matrix : ConflictMatrix}
    (hP : StepClosed P pool rooms matrix) (exams : List Exam)
    (numDays : Nat) (hex : ∀ e ∈ exams, e ∈ pool) (rs : RunSt) (h : P rs) :
    P (scheduleGenEdTimeBlocks exams rooms matrix numDays rs).1 ∧
    (∀ e ∈ (scheduleGenEdTimeBlocks exams rooms matrix numDays rs).2.2,
      e ∈ pool) := by
  have htys : ∀ kg ∈ genEdsByType exams, ∀ e ∈ kg.2, e ∈ pool :=
    fun kg hkg e he => hex e (mem_of_groupByKey hkg he)
  unfold scheduleGenEdTimeBlocks
  suffices hgen : ∀ (tys : List (String × List Exam)),
      (∀ kg ∈ tys, ∀ e ∈ kg.2, e ∈ pool) → ∀ (acc : PhaseAcc), P acc.1 →
      (∀ e ∈ acc.2.2, e ∈ pool) →
      P (tys.foldl (genEdTypeStep rooms matrix numDays) acc).1 ∧
      (∀ e ∈ (tys.foldl (genEdTypeStep rooms matrix numDays) acc).2.2,
        e ∈ pool) by
    exact hgen (genEdsByType exams) htys (rs, 0, []) h (by simp)
  intro tys
  induction tys with
  | nil =>
      intro _ acc h1 h2
      exact ⟨h1, h2⟩
  | cons kg rest ih =>
      intro htys2 acc h1 h2
      rw [List.foldl_cons]
      have hstep := genEdTypeStep_pres hP numDays kg
        (htys2 kg (List.mem_cons_self _ _)) acc h1 h2
      exact ih (fun kg2 hkg2 => htys2 kg2 (List.mem_cons_of_mem _ hkg2))
        _ hstep.1 hstep.2

theorem scheduleHighPriority_pres {P : RunSt → Prop} {pool : List Exam}
    {rooms : List String} {matrix : ConflictMatrix}
    (hP : StepClosed P pool rooms matrix) (exams : List Exam)
    (numDays : Nat) (hex : ∀ e ∈ exams, e ∈ pool) (rs : RunSt) (h : P rs) :
    P (scheduleHighPriority exams rooms matrix numDays rs).1 ∧
    (∀ e ∈ (scheduleHighPriority exams rooms matrix numDays rs).2.2,
      e ∈ pool) := by
  have hmath : ∀ kg ∈ groupExamsBySubject (exams.filter isMathSubject),
      ∀ e ∈ kg.2, e ∈ pool := fun kg hkg e he =>
    hex e (List.mem_of_mem_filter (mem_of_groupByKey hkg he))
  have harch : ∀ kg ∈ groupExamsBySubject
      (exams.filter (fun e => isArchSubject e.subjectId)),
      ∀ e ∈ kg.2, e ∈ pool := fun kg hkg e he =>
    hex e (List.mem_of_mem_filter (mem_of_groupByKey hkg he))
  unfold scheduleHighPriority
  have h1 := foldGroups_pres hP (gridCells numDays) _ (rs, 0, []) hmath h
    (by simp)
  exact foldGroups_pres hP (gridCells numDays) _ _ harch h1.1 h1.2

theorem scheduleMajorSubjects_pres {P : RunSt → Prop} {pool : List Exam}
    {rooms : List String} {matrix : ConflictMatrix}
    (hP : StepClosed P pool rooms matrix) (exams : List Exam)
    (numDays : Nat) (hex : ∀ e ∈ exams, e ∈ pool) (rs : RunSt) (h : P rs) :
    P (scheduleMajorSubjects exams rooms matrix numDays rs).1 ∧
    (∀ e ∈ (scheduleMajorSubjects exams rooms matrix numDays rs).2.2,
      e ∈ pool) := by
  have hgrps : ∀ kg ∈ sortGroupsBySize (groupExamsBySubject exams),
      ∀ e ∈ kg.2, e ∈ pool := fun kg hkg e he =>
    hex e (mem_of_groupByKey (mem_sortGroupsBySize.mp hkg) he)
  unfold scheduleMajorSubjects
  exact foldGroups_pres hP (gridCells numDays) _ (rs, 0, []) hgrps h (by simp)

theorem scheduleIndividually_pres {P : RunSt → Prop} {pool : List Exam}
    {rooms : List String} {matrix : ConflictMatrix}
    (hP : StepClosed P pool rooms matrix) (exams : List Exam)
    (numDays : Nat) (hex : ∀ e ∈ exams, e ∈ pool) (rs : RunSt) (h : P rs) :
    P (scheduleIndividually exams rooms matrix numDays rs).1 := by
  unfold scheduleIndividually
  suffices hgen : ∀ (l : List Exam), (∀ e ∈ l, e ∈ pool) →
      ∀ (a : RunSt × Nat), P a.1 →
      P (l.foldl (fun a e =>
        match tryExamCells e (gridCells numDays) rooms matrix a.1 with
        | (rs1, true) => (rs1, a.2 + 1)
        | (rs1, false) => (rs1, a.2)) a).1 by
    exact hgen exams hex (rs, 0) h
  intro l
  induction l with
  | nil =>
      intro _ a h1
      exact h1
  | cons e rest ih =>
      intro hl a h1
      rw [List.foldl_cons]
      have hcell : P (tryExamCells e (gridCells numDays) rooms matrix a.1).1 :=
        tryExamCells_pres hP (hl e (List.mem_cons_self _ _)) _ a.1 h1
      have hrest := fun e2 he2 => hl e2 (List.mem_cons_of_mem _ he2)
      cases htry : tryExamCells e (gridCells numDays) rooms matrix a.1 with
      | mk rs1 ok =>
          rw [htry] at hcell
          cases ok
          · exact ih hrest _ hcell
          · exact ih hrest _ hcell

/-- Every placement step of a full run preserves `P` (instantiated with the
run's own eligible pool and conflict matrix). -/
theorem runEligible_pres {P : RunSt → Prop} {rooms : List String}
    (eligible : List Exam) (numDays : Nat)
    (hP : StepClosed P eligible rooms (buildConflictMatrix eligible))
    (h0 : P emptyRun) : P (runEligible eligible rooms numDays) := by
  unfold runEligible
  have hgen : ∀ e ∈ eligible.filter (fun e => isGenEdSubject e.subjectId),
      e ∈ eligible := fun e he => List.mem_of_mem_filter he
  have hhp : ∀ e ∈ eligible.filter isMathSubject ++
      eligible.filter (fun e => isArchSubject e.subjectId), e ∈ eligible := by
    intro e he
    rcases List.mem_append.mp he with he | he <;>
      exact List.mem_of_mem_filter he
  have hmaj : ∀ e ∈ eligible.filter (fun e =>
      !isGenEdSubject e.subjectId && !isMathSubject e &&
        !isArchSubject e.subjectId), e ∈ eligible :=
    fun e he => List.mem_of_mem_filter he
  have h1 := scheduleGenEdTimeBlocks_pres hP _ numDays hgen emptyRun h0
  have h2 := scheduleHighPriority_pres hP _ numDays hhp _ h1.1
  have h3 := scheduleMajorSubjects_pres hP _ numDays hmaj _ h2.1
  refine scheduleIndividually_pres hP _ numDays ?_ _ h3.1
  intro e he
  rcases List.mem_append.mp he with he | he
  · rcases List.mem_append.mp he with he | he
    · exact h1.2 e he
    · exact h2.2 e he
  · exact h3.2 e he

/-! ## Step closure from a per-commit condition -/

theorem schedule6UnitExam_pres_of {P : RunSt → Prop} {e : Exam}
    {day slot : Nat} {room : String} {rs : RunSt}
    (hse : ∀ (d s : Nat) (r : String) (sec : Bool) (rs2 : RunSt),
      P rs2 → P (scheduleExam e d s r sec rs2)) (h : P rs) :
    P (schedule6UnitExam e day slot room rs).1 := by
  by_cases hlt : slot < 7
  · rw [schedule6UnitExam_of_lt hlt]
    exact hse _ _ _ _ _ (hse _ _ _ _ _ h)
  · rw [schedule6UnitExam_of_ge (Nat.le_of_not_lt hlt)]
    exact h

theorem scheduleGroupLoop_pres_of {P : RunSt → Prop} {pool : List Exam}
    (hse : ∀ e ∈ pool, ∀ (day slot : Nat) (room : String) (sec : Bool)
      (rs : RunSt), P rs → P (scheduleExam e day slot room sec rs)) :
    ∀ (pairs : List (Exam × String)) (day slot : Nat) (rs : RunSt),
      (∀ p ∈ pairs, p.1 ∈ pool) → P rs →
      P (scheduleGroupLoop pairs day slot rs).1 := by
  intro pairs
  induction pairs with
  | nil =>
      intro day slot rs _ h
      exact h
  | cons hd tl ih =>
      intro day slot rs hmem h
      obtain ⟨e, room⟩ := hd
      have he : e ∈ pool := hmem (e, room) (List.mem_cons_self _ _)
      have htl : ∀ p ∈ tl, p.1 ∈ pool :=
        fun p hp => hmem p (List.mem_cons_of_mem _ hp)
      by_cases h6 : is6UnitSubject e
      · simp only [scheduleGroupLoop, h6, if_pos]
        have h1 : P (schedule6UnitExam e day slot room rs).1 :=
          schedule6UnitExam_pres_of (fun d s r sec rs2 => hse e he d s r sec rs2) h
        cases h2 : schedule6UnitExam e day slot room rs with
        | mk rs1 ok =>
            rw [h2] at h1
            cases ok
            · exact h1
            · exact ih day slot rs1 htl h1
      · simp only [scheduleGroupLoop, h6, Bool.false_eq_true, if_neg,
          not_false_iff]
        exact ih day slot _ htl (hse e he day slot room false rs h)

theorem stepClosed_of_scheduleExam {P : RunSt → Prop} (pool : List Exam)
    (rooms : List String) (matrix : ConflictMatrix)
    (hse : ∀ e ∈ pool, ∀ (day slot : Nat) (room : String) (sec : Bool)
      (rs : RunSt), P rs → P (scheduleExam e day slot room sec rs)) :
    StepClosed P pool rooms matrix := by
  constructor
  · intro grp day slot rs hgrp h
    cases grp with
    | nil => simpa [tryScheduleGroup] using h
    | cons e0 tl =>
        by_cases hc : (hasConflict e0 day slot rs.state matrix ||
            tl.any fun e => hasConflict e day slot rs.state matrix) = true
        · simpa [tryScheduleGroup, hc] using h
        · by_cases hr : (getAvailableRooms e0 day slot rooms rs.state
              (is6UnitSubject e0 || tl.any is6UnitSubject)).length
                < tl.length + 1
          · simpa [tryScheduleGroup, hc, hr] using h
          · rw [show tryScheduleGroup (e0 :: tl) day slot rooms matrix rs =
                scheduleGroupLoop ((e0 :: tl).zip
                  (getAvailableRooms e0 day slot rooms rs.state
                    (is6UnitSubject e0 || tl.any is6UnitSubject))) day slot rs
                from by simp [tryScheduleGroup, hc, hr]]
            refine scheduleGroupLoop_pres_of hse _ day slot rs ?_ h
            intro p hp
            obtain ⟨a, b⟩ := p
            exact hgrp a (List.of_mem_zip hp).1
  · intro e day slot rs he h
    unfold indivCellStep
    by_cases hc : hasConflict e day slot rs.state matrix = true
    · simpa [hc] using h
    · rw [if_neg (by simpa using hc)]
      cases havail : getAvailableRooms e day slot rooms rs.state
          (is6UnitSubject e) with
      | nil => exact h
      | cons r rest =>
          by_cases h6 : is6UnitSubject e
          · simp only [h6, if_pos]
            exact schedule6UnitExam_pres_of
              (fun d s r2 sec rs2 => hse e he d s r2 sec rs2) h
          · simp only [h6, Bool.false_eq_true, if_neg, not_false_iff]
            exact hse e he day slot r false rs h

/-! ## C10: output keyed by (code, slot label) -/

/-- The output accumulator is a map with pairwise distinct keys, each entry
sitting at the key built from its own section code and slot label. -/
def outKeyed (rs : RunSt) : Prop :=
  ((rs.out.map Prod.fst).Nodup) ∧
  ∀ kv ∈ rs.out, kv.1 = kv.2.CODE ++ "-" ++ kv.2.SLOT

theorem scheduleExam_outKeyed (e : Exam) (day slot : Nat) (room : String)
    (sec : Bool) (rs : RunSt) (h : outKeyed rs) :
    outKeyed (scheduleExam e day slot room sec rs) := by
  constructor
  · rw [scheduleExam_out]
    exact mapSet_keys_nodup _ _ h.1
  · intro kv hkv
    rw [scheduleExam_out] at hkv
    rcases mem_mapSet hkv with h1 | h1
    · subst h1
      simp [mkScheduledExam]
    · exact h.2 kv h1

theorem runSchedule_outKeyed (exams : List Exam) (rooms : List String)
    (numDays : Nat) : outKeyed (runSchedule exams rooms numDays) := by
  unfold runSchedule
  refine runEligible_pres _ _ (stepClosed_of_scheduleExam _ _ _ ?_) ?_
  · intro e _ day slot room sec rs h
    exact scheduleExam_outKeyed e day slot room sec rs h
  · exact ⟨by simp [emptyRun], by simp [emptyRun]⟩

theorem keyed_pairwise (l : List (String × ScheduledExam))
    (hnodup : (l.map Prod.fst).Nodup)
    (hshape : ∀ kv ∈ l, kv.1 = kv.2.CODE ++ "-" ++ kv.2.SLOT) :
    List.Pairwise (fun a b : String × ScheduledExam =>
      ¬(a.2.CODE = b.2.CODE ∧ a.2.SLOT = b.2.SLOT)) l := by
  induction l with
  | nil => simp
  | cons hd tl ih =>
      rw [List.map_cons, List.nodup_cons] at hnodup
      refine List.Pairwise.cons ?_
        (ih hnodup.2 (fun kv hkv => hshape kv (List.mem_cons_of_mem _ hkv)))
      intro b hb hcontra
      have h1 := hshape hd (List.mem_cons_self _ _)
      have h2 := hshape b (List.mem_cons_of_mem _ hb)
      have heq : hd.1 = b.1 := by rw [h1, h2, hcontra.1, hcontra.2]
      exact hnodup.1 (heq ▸ List.mem_map_of_mem Prod.fst hb)

/-- C10: the output holds at most one entry per (section code, slot label),
because entries are stored under the key `code ++ "-" ++ slotLabel`; a
second placement of the same section at the same slot label replaces the
earlier output entry while the earlier room claim stays in the ledger. -/
theorem generateExamSchedule_unique_code_slot :
    (∀ (exams : List Exam) (rooms : List String) (numDays : Nat),
      List.Pairwise (fun s1 s2 : ScheduledExam =>
        ¬(s1.CODE = s2.CODE ∧ s1.SLOT = s2.SLOT))
        (generateExamSchedule exams rooms numDays)) ∧
    (∀ (e : Exam) (day1 day2 slot : Nat) (room1 room2 : String) (rs : RunSt),
      alookup (scheduleExam e day2 slot room2 false
          (scheduleExam e day1 slot room1 false rs)).out
          (e.code ++ "-" ++ timeSlot slot)
        = some (mkScheduledExam e (dayLabel day2) (timeSlot slot) room2) ∧
      (dayLabel day1, timeSlot slot, room1) ∈
        (scheduleExam e day2 slot room2 false
          (scheduleExam e day1 slot room1 false rs)).state.roomUsage) := by
  constructor
  · intro exams rooms numDays
    have h := runSchedule_outKeyed exams rooms numDays
    unfold generateExamSchedule
    rw [List.pairwise_map]
    exact keyed_pairwise _ h.1 h.2
  · intro e day1 day2 slot room1 room2 rs
    constructor
    · rw [scheduleExam_out, scheduleExam_out, alookup_mapSet_self]
    · rw [scheduleExam_roomUsage, scheduleExam_roomUsage]
      simp

/-! ## C9: SAS sections are excluded -/

/-- All output entries belong to non-SAS departments. -/
def outNoSAS (rs : RunSt) : Prop :=
  ∀ kv ∈ rs.out, strUpper kv.2.DEPT ≠ "SAS"

theorem runSchedule_outNoSAS (exams : List Exam) (rooms : List String)
    (numDays : Nat) : outNoSAS (runSchedule exams rooms numDays) := by
  unfold runSchedule
  refine runEligible_pres _ _ (stepClosed_of_scheduleExam _ _ _ ?_) ?_
  · intro e he day slot room sec rs h
    intro kv hkv
    rw [scheduleExam_out] at hkv
    rcases mem_mapSet hkv with h1 | h1
    · subst h1
      have h2 := (List.mem_filter.mp he).2
      simpa [mkScheduledExam, isEligibleDept, bne_iff_ne] using h2
    · exact h kv h1
  · intro kv hkv
    simp [emptyRun] at hkv

/-- C9: no section of the SAS department (case-insensitively) ever appears
in the scheduler output, and inserting a SAS section anywhere in the input
changes neither the output nor the conflict matrix built for the run. -/
theorem generateExamSchedule_excludes_SAS :
    (∀ (exams : List Exam) (rooms : List String) (numDays : Nat),
      ∀ s ∈ generateExamSchedule exams rooms numDays,
        strUpper s.DEPT ≠ "SAS") ∧
    (∀ e : Exam, strUpper e.dept = "SAS" →
      ∀ (l1 l2 : List Exam) (rooms : List String) (numDays : Nat),
        generateExamSchedule (l1 ++ e :: l2) rooms numDays =
          generateExamSchedule (l1 ++ l2) rooms numDays ∧
        buildConflictMatrix ((l1 ++ e :: l2).filter isEligibleDept) =
          buildConflictMatrix ((l1 ++ l2).filter isEligibleDept)) := by
  constructor
  · intro exams rooms numDays s hs
    unfold generateExamSchedule at hs
    obtain ⟨kv, hkv, hsnd⟩ := List.mem_map.mp hs
    exact hsnd ▸ runSchedule_outNoSAS exams rooms numDays kv hkv
  · intro e hdept l1 l2 rooms numDays
    have hne : isEligibleDept e = false := by
      simp [isEligibleDept, hdept]
    have hfilter : (l1 ++ e :: l2).filter isEligibleDept =
        (l1 ++ l2).filter isEligibleDept := by
      rw [List.filter_append, List.filter_append, List.filter_cons_of_neg]
      simp [hne]
    constructor
    · unfold generateExamSchedule runSchedule
      rw [hfilter]
    · rw [hfilter]

def c9SAS : Exam := mkExam "Z1" "ZSUBJ" "X" "SAS" 1 3
def c9Major : Exam := mkExam "Z2" "ZSUBJ2" "X" "DDD" 1 3

/-- C9 witness: the exclusion theorem applied to a concrete run containing
a SAS section. -/
theorem generateExamSchedule_excludes_SAS_inst :
    strUpper (mkScheduledExam c9Major (dayLabel 0) (timeSlot 0) "A-1").DEPT
      ≠ "SAS" ∧
    generateExamSchedule [c9SAS, c9Major] ["A-1"] 1 =
      generateExamSchedule [c9Major] ["A-1"] 1 :=
  ⟨generateExamSchedule_excludes_SAS.1 [c9Major] ["A-1"] 1
      (mkScheduledExam c9Major (dayLabel 0) (timeSlot 0) "A-1") (by decide),
   (generateExamSchedule_excludes_SAS.2 c9SAS (by decide) [] [c9Major]
      ["A-1"] 1).1⟩

/-! ## C3: no double-booking -/

theorem TIME_SLOTS_length : TIME_SLOTS.length = 8 := rfl

theorem mem_roomsAt {st : SchedulingState} {dk sk r : String} :
    r ∈ roomsAt st dk sk ↔ (dk, sk, r) ∈ st.roomUsage := by
  unfold roomsAt
  rw [List.mem_filterMap]
  constructor
  · rintro ⟨t, ht, hsome⟩
    by_cases h1 : (t.1 == dk && t.2.1 == sk) = true
    · rw [if_pos h1] at hsome
      simp only [beq_iff_eq, Bool.and_eq_true] at h1
      obtain ⟨a, b, c⟩ := t
      simp only at h1 hsome
      obtain ⟨rfl, rfl⟩ := h1
      obtain rfl : c = r := by simpa using hsome
      exact ht
    · rw [if_neg h1] at hsome
      simp at hsome
  · intro hmem
    refine ⟨(dk, sk, r), hmem, ?_⟩
    simp

/-- What membership in the available-room list guarantees: the room is
offered by the caller, is unoccupied at the probed cell, and, when the
consecutive-slot variant applies at a non-final slot, unoccupied at the
following cell too. -/
theorem getAvailableRooms_spec {e : Exam} {day slot : Nat}
    {rooms : List String} {st : SchedulingState} {rc : Bool} {r : String}
    (h : r ∈ getAvailableRooms e day slot rooms st rc) :
    r ∈ rooms ∧ (dayLabel day, timeSlot slot, r) ∉ st.roomUsage ∧
    (rc = true → slot < 7 →
      (dayLabel day, timeSlot (slot + 1), r) ∉ st.roomUsage) := by
  unfold getAvailableRooms at h
  rw [List.mem_filter] at h
  obtain ⟨h1, h2⟩ := h
  rw [List.mem_filter] at h1
  by_cases hcond : (rc && decide (slot < TIME_SLOTS.length - 1)) = true
  · rw [if_pos hcond] at h2
    simp at h2
    exact ⟨h1.1, fun hmem => h2.1 (mem_roomsAt.mpr hmem),
      fun _ _ hmem => h2.2 (mem_roomsAt.mpr hmem)⟩
  · rw [if_neg hcond] at h2
    simp only [Bool.not_eq_true'] at h2
    simp at h2
    refine ⟨h1.1, fun hmem => h2 (mem_roomsAt.mpr hmem), ?_⟩
    intro hrc hlt
    exfalso
    apply hcond
    rw [hrc, TIME_SLOTS_length]
    simpa using hlt

theorem getAvailableRooms_nodup {e : Exam} {day slot : Nat}
    {rooms : List String} {st : SchedulingState} {rc : Bool}
    (h : rooms.Nodup) : (getAvailableRooms e day slot rooms st rc).Nodup := by
  unfold getAvailableRooms
  exact (h.filter _).filter _

theorem zip_map_snd_sublist {α β : Type} :
    ∀ (l1 : List α) (l2 : List β), ((l1.zip l2).map Prod.snd).Sublist l2 := by
  intro l1
  induction l1 with
  | nil => intro l2; simp
  | cons a l1 ih =>
      intro l2
      cases l2 with
      | nil => simp
      | cons b l2 => simpa using (ih l2).cons₂ b

/-- The no-double-booking invariant: every output entry's (day, slot, room)
triple is recorded in the ledger, and no two positions of the output map
carry the same triple. -/
def noDoubleBook (rs : RunSt) : Prop :=
  (∀ kv ∈ rs.out, (kv.2.DAY, kv.2.SLOT, kv.2.ROOM) ∈ rs.state.roomUsage) ∧
  List.Pairwise (fun a b : String × ScheduledExam =>
    ¬(a.2.DAY = b.2.DAY ∧ a.2.SLOT = b.2.SLOT ∧ a.2.ROOM = b.2.ROOM)) rs.out

theorem pairwise_mapSet {β : Type}
    {R : (String × β) → (String × β) → Prop} {l : List (String × β)}
    {k : String} {v : β} (hl : List.Pairwise R l)
    (hnew : ∀ kv ∈ l, R (k, v) kv ∧ R kv (k, v)) :
    List.Pairwise R (mapSet l k v) := by
  induction l with
  | nil => simp [mapSet]
  | cons hd tl ih =>
      obtain ⟨a, b⟩ := hd
      rw [List.pairwise_cons] at hl
      by_cases h : a = k
      · subst h
        simp only [mapSet, if_pos rfl]
        refine List.Pairwise.cons ?_ hl.2
        intro kv hkv
        exact (hnew kv (List.mem_cons_of_mem _ hkv)).1
      · simp only [mapSet, h, if_neg, not_false_iff]
        refine List.Pairwise.cons ?_
          (ih hl.2 (fun kv hkv => hnew kv (List.mem_cons_of_mem _ hkv)))
        intro kv hkv
        rcases mem_mapSet hkv with h1 | h1
        · subst h1
          exact (hnew (a, b) (List.mem_cons_self _ _)).2
        · exact hl.1 kv h1

theorem scheduleExam_noDoubleBook {e : Exam} {day slot : Nat} {room : String}
    {sec : Bool} {rs : RunSt}
    (hfresh : (dayLabel day, timeSlot slot, room) ∉ rs.state.roomUsage)
    (h : noDoubleBook rs) :
    noDoubleBook (scheduleExam e day slot room sec rs) := by
  obtain ⟨hmem, hpw⟩ := h
  constructor
  · intro kv hkv
    rw [scheduleExam_out] at hkv
    rw [scheduleExam_roomUsage]
    rcases mem_mapSet hkv with h1 | h1
    · subst h1
      simp [mkScheduledExam]
    · exact List.mem_cons_of_mem _ (hmem kv h1)
  · rw [scheduleExam_out]
    refine pairwise_mapSet hpw ?_
    intro kv hkv
    have h2 := hmem kv hkv
    constructor
    · intro hcontra
      apply hfresh
      simp only [mkScheduledExam] at hcontra
      rw [← hcontra.1, ← hcontra.2.1, ← hcontra.2.2] at h2
      exact h2
    · intro hcontra
      apply hfresh
      simp only [mkScheduledExam] at hcontra
      rw [hcontra.1, hcontra.2.1, hcontra.2.2] at h2
      exact h2

theorem schedule6UnitExam_noDoubleBook {e : Exam} {day slot : Nat}
    {room : String} {rs : RunSt}
    (hfresh1 : (dayLabel day, timeSlot slot, room) ∉ rs.state.roomUsage)
    (hfresh2 : slot < 7 →
      (dayLabel day, timeSlot (slot + 1), room) ∉ rs.state.roomUsage)
    (h : noDoubleBook rs) :
    noDoubleBook (schedule6UnitExam e day slot room rs).1 := by
  by_cases hlt : slot < 7
  · rw [schedule6UnitExam_of_lt hlt]
    apply scheduleExam_noDoubleBook
    · rw [scheduleExam_roomUsage]
      intro hmem2
      rcases List.mem_cons.mp hmem2 with h1 | h1
      · have hne := timeSlot_succ_ne slot hlt
        simp only [Prod.mk.injEq] at h1
        exact hne h1.2.1.symm
      · exact hfresh2 hlt h1
    · exact scheduleExam_noDoubleBook hfresh1 h
  · rw [schedule6UnitExam_of_ge (Nat.le_of_not_lt hlt)]
    exact h

theorem scheduleGroupLoop_noDoubleBook :
    ∀ (pairs : List (Exam × String)) (day slot : Nat) (rs : RunSt),
      noDoubleBook rs →
      (pairs.map Prod.snd).Nodup →
      (∀ p ∈ pairs,
        (dayLabel day, timeSlot slot, p.2) ∉ rs.state.roomUsage) →
      (∀ p ∈ pairs, is6UnitSubject p.1 = true → slot < 7 →
        (dayLabel day, timeSlot (slot + 1), p.2) ∉ rs.state.roomUsage) →
      noDoubleBook (scheduleGroupLoop pairs day slot rs).1 := by
  intro pairs
  induction pairs with
  | nil =>
      intro day slot rs h _ _ _
      exact h
  | cons hd tl ih =>
      intro day slot rs h hnd hf1 hf2
      obtain ⟨e, room⟩ := hd
      rw [List.map_cons, List.nodup_cons] at hnd
      have hroomne : ∀ p ∈ tl, p.2 ≠ room := by
        intro p hp hcontra
        exact hnd.1 (List.mem_map.mpr ⟨p, hp, hcontra⟩)
      have hcur1 := hf1 (e, room) (List.mem_cons_self _ _)
      have hcur2 := hf2 (e, room) (List.mem_cons_self _ _)
      have htl1 := fun p hp => hf1 p (List.mem_cons_of_mem _ hp)
      have htl2 := fun p hp => hf2 p (List.mem_cons_of_mem _ hp)
      by_cases h6 : is6UnitSubject e
      · simp only [scheduleGroupLoop, h6, if_pos]
        by_cases hlt : slot < 7
        · have hnb2 : noDoubleBook (scheduleExam e day (slot + 1) room true
              (scheduleExam e day slot room false rs)) := by
            have h2 := schedule6UnitExam_noDoubleBook (e := e) hcur1
              (hcur2 h6) h
            rwa [schedule6UnitExam_of_lt hlt] at h2
          rw [schedule6UnitExam_of_lt hlt]
          refine ih day slot _ hnb2 hnd.2 ?_ ?_
          · intro p hp
            rw [scheduleExam_roomUsage, scheduleExam_roomUsage]
            intro hmem
            rcases List.mem_cons.mp hmem with h1 | h1
            · simp only [Prod.mk.injEq] at h1
              exact hroomne p hp h1.2.2
            · rcases List.mem_cons.mp h1 with h2 | h2
              · simp only [Prod.mk.injEq] at h2
                exact hroomne p hp h2.2.2
              · exact htl1 p hp h2
          · intro p hp hp6 hlt2
            rw [scheduleExam_roomUsage, scheduleExam_roomUsage]
            intro hmem
            rcases List.mem_cons.mp hmem with h1 | h1
            · simp only [Prod.mk.injEq] at h1
              exact hroomne p hp h1.2.2
            · rcases List.mem_cons.mp h1 with h2 | h2
              · simp only [Prod.mk.injEq] at h2
                exact hroomne p hp h2.2.2
              · exact htl2 p hp hp6 hlt2 h2
        · rw [schedule6UnitExam_of_ge (Nat.le_of_not_lt hlt)]
          exact h
      · simp only [scheduleGroupLoop, h6, Bool.false_eq_true, if_neg,
          not_false_iff]
        refine ih day slot _ (scheduleExam_noDoubleBook hcur1 h) hnd.2 ?_ ?_
        · intro p hp
          rw [scheduleExam_roomUsage]
          intro hmem
          rcases List.mem_cons.mp hmem with h1 | h1
          · simp only [Prod.mk.injEq] at h1
            exact hroomne p hp h1.2.2
          · exact htl1 p hp h1
        · intro p hp hp6 hlt2
          rw [scheduleExam_roomUsage]
          intro hmem
          rcases List.mem_cons.mp hmem with h1 | h1
          · simp only [Prod.mk.injEq] at h1
            exact hroomne p hp h1.2.2
          · exact htl2 p hp hp6 hlt2 h1

theorem tryScheduleGroup_noDoubleBook {rooms : List String}
    {matrix : ConflictMatrix} (hnd : rooms.Nodup) (grp : List Exam)
    (day slot : Nat) (rs : RunSt) (h : noDoubleBook rs) :
    noDoubleBook (tryScheduleGroup grp day slot rooms matrix rs).1 := by
  cases grp with
  | nil => simpa [tryScheduleGroup] using h
  | cons e0 tl =>
      by_cases hc : (hasConflict e0 day slot rs.state matrix ||
          tl.any fun e => hasConflict e day slot rs.state matrix) = true
      · simpa [tryScheduleGroup, hc] using h
      · by_cases hr : (getAvailableRooms e0 day slot rooms rs.state
            (is6UnitSubject e0 || tl.any is6UnitSubject)).length
              < tl.length + 1
        · simpa [tryScheduleGroup, hc, hr] using h
        · rw [show tryScheduleGroup (e0 :: tl) day slot rooms matrix rs =
              scheduleGroupLoop ((e0 :: tl).zip
                (getAvailableRooms e0 day slot rooms rs.state
                  (is6UnitSubject e0 || tl.any is6UnitSubject))) day slot rs
              from by simp [tryScheduleGroup, hc, hr]]
          have havailnd : (getAvailableRooms e0 day slot rooms rs.state
              (is6UnitSubject e0 || tl.any is6UnitSubject)).Nodup :=
            getAvailableRooms_nodup hnd
          refine scheduleGroupLoop_noDoubleBook _ day slot rs h
            (List.Nodup.sublist (zip_map_snd_sublist _ _) havailnd) ?_ ?_
          · intro p hp
            obtain ⟨a, b⟩ := p
            exact (getAvailableRooms_spec (List.of_mem_zip hp).2).2.1
          · intro p hp hp6 hlt
            obtain ⟨a, b⟩ := p
            have hmem := List.of_mem_zip hp
            have hrc : (is6UnitSubject e0 || tl.any is6UnitSubject) = true := by
              rcases List.mem_cons.mp hmem.1 with h1 | h1
              · rw [← h1]
                simp [hp6]
              · simp only [Bool.or_eq_true, List.any_eq_true]
                exact Or.inr ⟨a, h1, hp6⟩
            exact (getAvailableRooms_spec hmem.2).2.2 hrc hlt

theorem indivCellStep_noDoubleBook {rooms : List String}
    {matrix : ConflictMatrix} (e : Exam) (day slot : Nat) (rs : RunSt)
    (h : noDoubleBook rs) :
    noDoubleBook (indivCellStep e day slot rooms matrix rs).1 := by
  unfold indivCellStep
  by_cases hc : hasConflict e day slot rs.state matrix = true
  · simpa [hc] using h
  · rw [if_neg (by simpa using hc)]
    cases havail : getAvailableRooms e day slot rooms rs.state
        (is6UnitSubject e) with
    | nil => exact h
    | cons r rest =>
        have hrmem : r ∈ getAvailableRooms e day slot rooms rs.state
            (is6UnitSubject e) := by
          rw [havail]
          exact List.mem_cons_self _ _
        have hspec := getAvailableRooms_spec hrmem
        by_cases h6 : is6UnitSubject e
        · simp only [h6, if_pos]
          exact schedule6UnitExam_noDoubleBook hspec.2.1
            (fun hlt => hspec.2.2 h6 hlt) h
        · simp only [h6, Bool.false_eq_true, if_neg, not_false_iff]
          exact scheduleExam_noDoubleBook hspec.2.1 h

theorem runSchedule_noDoubleBook (exams : List Exam) (rooms : List String)
    (numDays : Nat) (hnd : rooms.Nodup) :
    noDoubleBook (runSchedule exams rooms numDays) := by
  unfold runSchedule
  refine runEligible_pres _ _
    ⟨fun grp day slot rs _ h =>
        tryScheduleGroup_noDoubleBook hnd grp day slot rs h,
      fun e day slot rs _ h => indivCellStep_noDoubleBook e day slot rs h⟩
    ⟨by simp [emptyRun], by simp [emptyRun]⟩

/-- C3 (amended): when the offered room identifiers are pairwise distinct,
no two entries of the scheduler output (at distinct positions) share the
same (day label, slot label, room) triple.  The claim as stated over every
room list fails: a duplicated identifier in the room pool is handed to two
sections of one group at the same cell. -/
theorem generateExamSchedule_no_double_booking (exams : List Exam)
    (rooms : List String) (numDays : Nat) (hnd : rooms.Nodup) :
    List.Pairwise (fun s1 s2 : ScheduledExam =>
      ¬(s1.DAY = s2.DAY ∧ s1.SLOT = s2.SLOT ∧ s1.ROOM = s2.ROOM))
      (generateExamSchedule exams rooms numDays) := by
  have h := runSchedule_noDoubleBook exams rooms numDays hnd
  unfold generateExamSchedule
  rw [List.pairwise_map]
  exact h.2

def c3SecA : Exam := mkExam "S1" "SUBJ1" "X" "DDD" 1 3
def c3SecB : Exam := mkExam "S2" "SUBJ1" "X" "DDD" 1 3

/-- C3 counterexample: with the room identifier A-1 offered twice, the two
sections of the subject group are committed to the same room at the same
cell, so two distinct output entries share (Day 1, 7:30-9:00, A-1). -/
theorem generateExamSchedule_double_booked :
    ¬ List.Pairwise (fun s1 s2 : ScheduledExam =>
        ¬(s1.DAY = s2.DAY ∧ s1.SLOT = s2.SLOT ∧ s1.ROOM = s2.ROOM))
      (generateExamSchedule [c3SecA, c3SecB] ["A-1", "A-1"] 1) := by
  decide

def c3SecW : Exam := mkExam "S3" "SUBJ3" "X" "DDD" 1 3

/-- C3 witness: the amended no-double-booking theorem applied to a concrete
run with pairwise distinct rooms. -/
theorem generateExamSchedule_no_double_booking_inst :
    List.Pairwise (fun s1 s2 : ScheduledExam =>
      ¬(s1.DAY = s2.DAY ∧ s1.SLOT = s2.SLOT ∧ s1.ROOM = s2.ROOM))
      (generateExamSchedule [c3SecW] ["A-1", "A-2"] 1) :=
  generateExamSchedule_no_double_booking [c3SecW] ["A-1", "A-2"] 1 (by decide)

/-! ## C6: characterisation of the conflict matrix -/

theorem alookup_multiAdd_self {α : Type} (m : List (String × List α))
    (k : String) (x : α) :
    alookup (multiAdd m k x) k = some ((alookup m k).getD [] ++ [x]) := by
  induction m with
  | nil => simp [multiAdd, alookup]
  | cons hd tl ih =>
      obtain ⟨a, xs⟩ := hd
      by_cases h : a = k
      · subst h
        simp [multiAdd, alookup]
      · simp [multiAdd, alookup, h, ih]

theorem alookup_multiAdd_ne {α : Type} (m : List (String × List α))
    (k k1 : String) (x : α) (h : k1 ≠ k) :
    alookup (multiAdd m k x) k1 = alookup m k1 := by
  have hk : ¬ k = k1 := fun h1 => h h1.symm
  induction m with
  | nil => simp [multiAdd, alookup, hk]
  | cons hd tl ih =>
      obtain ⟨a, xs⟩ := hd
      by_cases h2 : a = k
      · subst h2
        simp [multiAdd, alookup, hk]
      · by_cases h3 : a = k1 <;> simp [multiAdd, alookup, h2, h3, h, ih]

theorem foldl_groupStep_lookup {α : Type} (key : α → String)
    (valid : α → Bool) :
    ∀ (xs : List α) (m : List (String × List α)) (k : String),
      alookup (xs.foldl
        (fun m x => if valid x then multiAdd m (key x) x else m) m) k =
        match alookup m k with
        | some g => some (g ++ xs.filter (fun x => valid x && (key x == k)))
        | none =>
            if (xs.filter (fun x => valid x && (key x == k))).isEmpty then none
            else some (xs.filter (fun x => valid x && (key x == k))) := by
  intro xs
  induction xs with
  | nil =>
      intro m k
      cases halook : alookup m k <;> simp [halook]
  | cons x xs ih =>
      intro m k
      rw [List.foldl_cons]
      by_cases hv : valid x = true
      · by_cases hk : key x = k
        · subst hk
          rw [if_pos hv, ih]
          rw [alookup_multiAdd_self]
          cases halook : alookup m (key x) <;>
            simp [halook, hv, List.filter_cons]
        · rw [if_pos hv, ih, alookup_multiAdd_ne _ _ _ _ (Ne.symm hk)]
          have hcond : (valid x && (key x == k)) = false := by
            simp [hk]
          cases halook : alookup m k <;>
            simp [halook, List.filter_cons, hcond]
      · rw [if_neg hv, ih]
        have hcond : (valid x && (key x == k)) = false := by
          simp [Bool.eq_false_iff.mpr hv]
        cases halook : alookup m k <;>
          simp [halook, List.filter_cons, hcond]

theorem groupByKey_lookup {α : Type} (key : α → String) (valid : α → Bool)
    (xs : List α) (k : String) :
    alookup (groupByKey key valid xs) k =
      if (xs.filter (fun x => valid x && (key x == k))).isEmpty then none
      else some (xs.filter (fun x => valid x && (key x == k))) := by
  unfold groupByKey
  rw [foldl_groupStep_lookup]
  simp [alookup]

theorem mem_of_alookup_eq_some {β : Type} :
    ∀ {m : List (String × β)} {k : String} {v : β},
      alookup m k = some v → (k, v) ∈ m := by
  intro m
  induction m with
  | nil =>
      intro k v h
      simp [alookup] at h
  | cons hd tl ih =>
      intro k v h
      obtain ⟨a, b⟩ := hd
      by_cases h2 : a = k
      · subst h2
        have hbv : b = v := by simpa [alookup] using h
        subst hbv
        exact List.mem_cons_self _ _
      · simp only [alookup, h2, if_neg, not_false_iff] at h
        exact List.mem_cons_of_mem _ (ih h)

/-- Key-aware membership property for `groupByKey`: every member of every
produced group comes from the input, passed the validity filter, and bears
the group's key. -/
theorem groupByKey_entry_prop {α : Type} (key : α → String)
    (valid : α → Bool) (xs : List α) :
    ∀ kg ∈ groupByKey key valid xs, ∀ x ∈ kg.2,
      x ∈ xs ∧ valid x = true ∧ key x = kg.1 := by
  have hgen : ∀ (l : List α) (m : List (String × List α)),
      (∀ kg ∈ m, ∀ x ∈ kg.2, x ∈ xs ∧ valid x = true ∧ key x = kg.1) →
      (∀ x ∈ l, x ∈ xs) →
      ∀ kg ∈ l.foldl
        (fun m x => if valid x then multiAdd m (key x) x else m) m,
        ∀ x ∈ kg.2, x ∈ xs ∧ valid x = true ∧ key x = kg.1 := by
    intro l
    induction l with
    | nil =>
        intro m hm _ kg hkg
        exact hm kg hkg
    | cons hd tl ih =>
        intro m hm hl
        rw [List.foldl_cons]
        by_cases hv : valid hd = true
        · rw [if_pos hv]
          refine ih _ ?_ (fun x hx => hl x (List.mem_cons_of_mem _ hx))
          intro kg hkg x hx
          -- membership in multiAdd m (key hd) hd
          have : ∀ kg2 ∈ multiAdd m (key hd) hd, ∀ y ∈ kg2.2,
              y ∈ xs ∧ valid y = true ∧ key y = kg2.1 := by
            clear hkg hx kg x
            intro kg2 hkg2 y hy
            induction m with
            | nil =>
                simp only [multiAdd, List.mem_singleton] at hkg2
                subst hkg2
                simp only [List.mem_singleton] at hy
                subst hy
                exact ⟨hl y (List.mem_cons_self _ _), hv, rfl⟩
            | cons hd2 tl2 ih2 =>
                obtain ⟨a, ys⟩ := hd2
                by_cases h2 : a = key hd
                · simp only [multiAdd, h2, if_pos, List.mem_cons] at hkg2
                  rcases hkg2 with hkg2 | hkg2
                  · subst hkg2
                    simp only [List.mem_append, List.mem_singleton] at hy
                    rcases hy with hy | hy
                    · have h4 := hm (a, ys) (List.mem_cons_self _ _) y hy
                      exact ⟨h4.1, h4.2.1, h2 ▸ h4.2.2⟩
                    · subst hy
                      exact ⟨hl y (List.mem_cons_self _ _), hv, rfl⟩
                  · exact hm kg2 (List.mem_cons_of_mem _ hkg2) y hy
                · simp only [multiAdd, h2, if_neg, not_false_iff,
                    List.mem_cons] at hkg2
                  rcases hkg2 with hkg2 | hkg2
                  · subst hkg2
                    exact hm (a, ys) (List.mem_cons_self _ _) y hy
                  · exact ih2 (fun kg3 hkg3 =>
                      hm kg3 (List.mem_cons_of_mem _ hkg3)) hkg2
          exact this kg hkg x hx
        · rw [if_neg (by simpa using hv)]
          exact ih m hm (fun x hx => hl x (List.mem_cons_of_mem _ hx))
  exact hgen xs [] (by simp) (fun x hx => hx)

theorem mem_setAdd {s : List String} {x y : String} :
    y ∈ setAdd s x ↔ y ∈ s ∨ y = x := by
  unfold setAdd
  by_cases h : s.contains x = true
  · rw [if_pos h]
    have hx : x ∈ s := by simpa using h
    constructor
    · exact Or.inl
    · rintro (hy | rfl)
      · exact hy
      · exact hx
  · rw [if_neg h]
    simp

theorem alookup_append_none {β : Type} {l1 l2 : List (String × β)}
    {k : String} (h : alookup l1 k = none) :
    alookup (l1 ++ l2) k = alookup l2 k := by
  induction l1 with
  | nil => simp
  | cons hd tl ih =>
      obtain ⟨a, b⟩ := hd
      by_cases h2 : a = k
      · simp [alookup, h2] at h
      · simp only [alookup, h2, if_neg, not_false_iff] at h
        simpa [alookup, h2] using ih h

theorem alookup_append_some {β : Type} {l1 l2 : List (String × β)}
    {k : String} {v : β} (h : alookup l1 k = some v) :
    alookup (l1 ++ l2) k = some v := by
  induction l1 with
  | nil => simp [alookup] at h
  | cons hd tl ih =>
      obtain ⟨a, b⟩ := hd
      by_cases h2 : a = k
      · subst h2
        simp only [alookup, if_pos rfl] at h ⊢
        simpa using h
      · simp only [alookup, h2, if_neg, not_false_iff] at h ⊢
        exact ih h

theorem alookup_rowAdd_self (r : List (String × List String))
    (a b : String) :
    alookup (rowAdd r a b) a = some (setAdd ((alookup r a).getD []) b) := by
  induction r with
  | nil => simp [rowAdd, alookup, setAdd]
  | cons hd tl ih =>
      obtain ⟨a1, s⟩ := hd
      by_cases h : a1 = a
      · subst h
        simp [rowAdd, alookup]
      · simp [rowAdd, alookup, h, ih]

theorem alookup_rowAdd_ne (r : List (String × List String))
    (a a1 b : String) (h : a1 ≠ a) :
    alookup (rowAdd r a b) a1 = alookup r a1 := by
  have ha : ¬ a = a1 := fun h1 => h h1.symm
  induction r with
  | nil => simp [rowAdd, alookup, ha]
  | cons hd tl ih =>
      obtain ⟨a2, s⟩ := hd
      by_cases h2 : a2 = a
      · subst h2
        simp [rowAdd, alookup, ha]
      · by_cases h3 : a2 = a1 <;> simp [rowAdd, alookup, h2, h3, h, ih]

theorem alookup_rowEnsure_getD (r : List (String × List String))
    (a a1 : String) :
    (alookup (rowEnsure r a) a1).getD [] = (alookup r a1).getD [] := by
  unfold rowEnsure
  cases h : alookup r a with
  | some s => rfl
  | none =>
      by_cases h2 : a1 = a
      · subst h2
        rw [alookup_append_none h]
        simp [alookup, h]
      · have h4 : ¬ a = a1 := fun hh => h2 hh.symm
        cases h3 : alookup r a1 with
        | some v => rw [alookup_append_some h3]
        | none =>
            rw [alookup_append_none h3]
            simp [alookup, h4]

theorem mtxGet_cons_self (k2 : String) (row : List (String × List String))
    (tl : ConflictMatrix) (a1 : String) :
    mtxGet ((k2, row) :: tl) k2 a1 = (alookup row a1).getD [] := by
  simp [mtxGet, alookup]

theorem mtxGet_cons_ne (k2 : String) (row : List (String × List String))
    (tl : ConflictMatrix) (k1 a1 : String) (h : k1 ≠ k2) :
    mtxGet ((k2, row) :: tl) k1 a1 = mtxGet tl k1 a1 := by
  have h2 : ¬ k2 = k1 := fun hh => h hh.symm
  simp [mtxGet, alookup, h2]

theorem mtxGet_nil (k1 a1 : String) : mtxGet [] k1 a1 = [] := rfl

theorem mtxGet_mtxAdd (m : ConflictMatrix) (k a b k1 a1 : String) :
    mtxGet (mtxAdd m k a b) k1 a1 =
      if k1 = k ∧ a1 = a then setAdd (mtxGet m k a) b
      else mtxGet m k1 a1 := by
  induction m with
  | nil =>
      by_cases h1 : k1 = k
      · subst h1
        by_cases h2 : a1 = a
        · subst h2
          simp [mtxAdd, mtxGet, alookup, setAdd]
        · have h4 : ¬ a = a1 := fun hh => h2 hh.symm
          simp [mtxAdd, mtxGet, alookup, h2, h4]
      · have h4 : ¬ k = k1 := fun hh => h1 hh.symm
        simp [mtxAdd, mtxGet, alookup, h1, h4]
  | cons hd tl ih =>
      obtain ⟨k2, row⟩ := hd
      by_cases h2 : k2 = k
      · subst h2
        rw [show mtxAdd ((k2, row) :: tl) k2 a b =
            (k2, rowAdd row a b) :: tl from by simp [mtxAdd]]
        by_cases h3 : k1 = k2
        · subst h3
          by_cases h4 : a1 = a
          · subst h4
            rw [if_pos ⟨rfl, rfl⟩, mtxGet_cons_self, mtxGet_cons_self,
              alookup_rowAdd_self]
            simp
          · rw [if_neg (fun hh : k1 = k1 ∧ a1 = a => h4 hh.2),
              mtxGet_cons_self, mtxGet_cons_self,
              alookup_rowAdd_ne _ _ _ _ h4]
        · rw [if_neg (fun hh : k1 = k2 ∧ a1 = a => h3 hh.1),
            mtxGet_cons_ne _ _ _ _ _ h3, mtxGet_cons_ne _ _ _ _ _ h3]
      · rw [show mtxAdd ((k2, row) :: tl) k a b =
            (k2, row) :: mtxAdd tl k a b from by simp [mtxAdd, h2]]
        by_cases h3 : k1 = k2
        · subst h3
          rw [if_neg (fun hh : k1 = k ∧ a1 = a => h2 (hh.1 ▸ rfl)),
            mtxGet_cons_self, mtxGet_cons_self]
        · rw [mtxGet_cons_ne _ _ _ _ _ h3, mtxGet_cons_ne _ _ _ _ _ h3, ih]
          by_cases h4 : k1 = k ∧ a1 = a
          · rw [if_pos h4, if_pos h4,
              mtxGet_cons_ne _ _ _ _ _ (fun hh : k = k2 => h2 hh.symm)]
          · rw [if_neg h4, if_neg h4]

theorem mtxGet_mtxEnsureCell (m : ConflictMatrix) (k a k1 a1 : String) :
    mtxGet (mtxEnsureCell m k a) k1 a1 = mtxGet m k1 a1 := by
  induction m with
  | nil =>
      by_cases h1 : k1 = k
      · subst h1
        by_cases h2 : a1 = a
        · subst h2
          simp [mtxEnsureCell, mtxGet, alookup]
        · have h4 : ¬ a = a1 := fun hh => h2 hh.symm
          simp [mtxEnsureCell, mtxGet, alookup, h4]
      · have h4 : ¬ k = k1 := fun hh => h1 hh.symm
        simp [mtxEnsureCell, mtxGet, alookup, h4]
  | cons hd tl ih =>
      obtain ⟨k2, row⟩ := hd
      by_cases h2 : k2 = k
      · subst h2
        rw [show mtxEnsureCell ((k2, row) :: tl) k2 a =
            (k2, rowEnsure row a) :: tl from by simp [mtxEnsureCell]]
        by_cases h3 : k1 = k2
        · subst h3
          rw [mtxGet_cons_self, mtxGet_cons_self, alookup_rowEnsure_getD]
        · rw [mtxGet_cons_ne _ _ _ _ _ h3, mtxGet_cons_ne _ _ _ _ _ h3]
      · rw [show mtxEnsureCell ((k2, row) :: tl) k a =
            (k2, row) :: mtxEnsureCell tl k a from by simp [mtxEnsureCell, h2]]
        by_cases h3 : k1 = k2
        · subst h3
          rw [mtxGet_cons_self, mtxGet_cons_self]
        · rw [mtxGet_cons_ne _ _ _ _ _ h3, mtxGet_cons_ne _ _ _ _ _ h3, ih]

theorem mem_mtx_innerFold (k : String) (e1 : Exam) :
    ∀ (grp : List Exam) (m : ConflictMatrix) (k1 a b : String),
      b ∈ mtxGet (grp.foldl (fun m2 e2 =>
        if e1.code != e2.code &&
            normSubj e1.subjectId != normSubj e2.subjectId then
          mtxAdd m2 k (normSubj e1.subjectId) (normSubj e2.subjectId)
        else m2) m) k1 a ↔
      b ∈ mtxGet m k1 a ∨
      (k1 = k ∧ a = normSubj e1.subjectId ∧ ∃ e2 ∈ grp,
        b = normSubj e2.subjectId ∧ e1.code ≠ e2.code ∧
        normSubj e1.subjectId ≠ normSubj e2.subjectId) := by
  intro grp
  induction grp with
  | nil =>
      intro m k1 a b
      simp
  | cons e2 rest ih =>
      intro m k1 a b
      rw [List.foldl_cons]
      by_cases hcond : (e1.code != e2.code &&
          normSubj e1.subjectId != normSubj e2.subjectId) = true
      · rw [if_pos hcond, ih, mtxGet_mtxAdd]
        simp only [bne_iff_ne, Bool.and_eq_true] at hcond
        by_cases hC : k1 = k ∧ a = normSubj e1.subjectId
        · obtain ⟨rfl, rfl⟩ := hC
          rw [if_pos ⟨rfl, rfl⟩]
          simp only [mem_setAdd, List.mem_cons]
          constructor
          · rintro ((hmem | rfl) | ⟨-, -, x, hx, hbx, hcx, hsx⟩)
            · exact Or.inl hmem
            · exact Or.inr ⟨by trivial, by trivial, e2, Or.inl rfl, rfl,
                hcond.1, hcond.2⟩
            · exact Or.inr ⟨by trivial, by trivial, x, Or.inr hx, hbx, hcx,
                hsx⟩
          · rintro (hmem | ⟨-, -, x, hx, hbx, hcx, hsx⟩)
            · exact Or.inl (Or.inl hmem)
            · rcases hx with rfl | hx
              · exact Or.inl (Or.inr hbx)
              · exact Or.inr ⟨by trivial, by trivial, x, hx, hbx, hcx, hsx⟩
        · rw [if_neg hC]
          constructor
          · rintro (hmem | ⟨h1, h2, -⟩)
            · exact Or.inl hmem
            · exact absurd ⟨h1, h2⟩ hC
          · rintro (hmem | ⟨h1, h2, x, hx, hbx, hcx, hsx⟩)
            · exact Or.inl hmem
            · exact absurd ⟨h1, h2⟩ hC
      · rw [if_neg hcond, ih]
        constructor
        · rintro (hmem | ⟨h1, h2, x, hx, hbx, hcx, hsx⟩)
          · exact Or.inl hmem
          · exact Or.inr ⟨h1, h2, x, List.mem_cons_of_mem _ hx, hbx, hcx, hsx⟩
        · rintro (hmem | ⟨h1, h2, x, hx, hbx, hcx, hsx⟩)
          · exact Or.inl hmem
          · rcases List.mem_cons.mp hx with rfl | hx
            · exact absurd (by simp [hcx, hsx]) hcond
            · exact Or.inr ⟨h1, h2, x, hx, hbx, hcx, hsx⟩

theorem conflictPairsFold_eq (k : String) (grp : List Exam)
    (m : ConflictMatrix) :
    conflictPairsFold k grp m = grp.foldl (fun m1 e1 =>
      grp.foldl (fun m2 e2 =>
        if e1.code != e2.code &&
            normSubj e1.subjectId != normSubj e2.subjectId then
          mtxAdd m2 k (normSubj e1.subjectId) (normSubj e2.subjectId)
        else m2) (mtxEnsureCell m1 k (normSubj e1.subjectId))) m := rfl

theorem mem_mtx_outerFold (k : String) (full : List Exam) :
    ∀ (grp : List Exam) (m : ConflictMatrix) (k1 a b : String),
      b ∈ mtxGet (grp.foldl (fun m1 e1 =>
        full.foldl (fun m2 e2 =>
          if e1.code != e2.code &&
              normSubj e1.subjectId != normSubj e2.subjectId then
            mtxAdd m2 k (normSubj e1.subjectId) (normSubj e2.subjectId)
          else m2) (mtxEnsureCell m1 k (normSubj e1.subjectId))) m) k1 a ↔
      b ∈ mtxGet m k1 a ∨
      (k1 = k ∧ ∃ e1 ∈ grp, a = normSubj e1.subjectId ∧ ∃ e2 ∈ full,
        b = normSubj e2.subjectId ∧ e1.code ≠ e2.code ∧
        normSubj e1.subjectId ≠ normSubj e2.subjectId) := by
  intro grp
  induction grp with
  | nil =>
      intro m k1 a b
      simp
  | cons e1 rest ih =>
      intro m k1 a b
      rw [List.foldl_cons, ih, mem_mtx_innerFold, mtxGet_mtxEnsureCell]
      constructor
      · rintro ((hmem | ⟨h1, h2, x, hx, hbx, hcx, hsx⟩) |
          ⟨h1, y, hy, h2, x, hx, hbx, hcx, hsx⟩)
        · exact Or.inl hmem
        · exact Or.inr ⟨h1, e1, List.mem_cons_self _ _, h2, x, hx, hbx, hcx,
            hsx⟩
        · exact Or.inr ⟨h1, y, List.mem_cons_of_mem _ hy, h2, x, hx, hbx,
            hcx, hsx⟩
      · rintro (hmem | ⟨h1, y, hy, h2, x, hx, hbx, hcx, hsx⟩)
        · exact Or.inl (Or.inl hmem)
        · rcases List.mem_cons.mp hy with rfl | hy
          · exact Or.inl (Or.inr ⟨h1, h2, x, hx, hbx, hcx, hsx⟩)
          · exact Or.inr ⟨h1, y, hy, h2, x, hx, hbx, hcx, hsx⟩

theorem mem_buildConflictMatrix (exams : List Exam) (k a b : String) :
    b ∈ mtxGet (buildConflictMatrix exams) k a ↔
      ∃ e1 ∈ exams, ∃ e2 ∈ exams,
        examValidCY e1 = true ∧ examValidCY e2 = true ∧
        courseYearKeyOf e1 = k ∧ courseYearKeyOf e2 = k ∧
        normSubj e1.subjectId = a ∧ normSubj e2.subjectId = b ∧
        e1.code ≠ e2.code ∧ a ≠ b := by
  have hgroups : ∀ (groups : List (String × List Exam)) (m : ConflictMatrix)
      (k1 a1 b1 : String),
      b1 ∈ mtxGet (groups.foldl
        (fun m kg => conflictPairsFold kg.1 kg.2 m) m) k1 a1 ↔
      b1 ∈ mtxGet m k1 a1 ∨ ∃ kg ∈ groups, k1 = kg.1 ∧
        ∃ e1 ∈ kg.2, a1 = normSubj e1.subjectId ∧ ∃ e2 ∈ kg.2,
          b1 = normSubj e2.subjectId ∧ e1.code ≠ e2.code ∧
          normSubj e1.subjectId ≠ normSubj e2.subjectId := by
    intro groups
    induction groups with
    | nil =>
        intro m k1 a1 b1
        simp
    | cons kg rest ih =>
        intro m k1 a1 b1
        rw [List.foldl_cons, ih, conflictPairsFold_eq, mem_mtx_outerFold]
        constructor
        · rintro ((hmem | ⟨h1, y, hy, h2, x, hx, hbx, hcx, hsx⟩) |
            ⟨kg2, hkg2, h1, y, hy, h2, x, hx, hbx, hcx, hsx⟩)
          · exact Or.inl hmem
          · exact Or.inr ⟨kg, List.mem_cons_self _ _, h1, y, hy, h2, x, hx,
              hbx, hcx, hsx⟩
          · exact Or.inr ⟨kg2, List.mem_cons_of_mem _ hkg2, h1, y, hy, h2,
              x, hx, hbx, hcx, hsx⟩
        · rintro (hmem | ⟨kg2, hkg2, h1, y, hy, h2, x, hx, hbx, hcx, hsx⟩)
          · exact Or.inl (Or.inl hmem)
          · rcases List.mem_cons.mp hkg2 with rfl | hkg2
            · exact Or.inl (Or.inr ⟨h1, y, hy, h2, x, hx, hbx, hcx, hsx⟩)
            · exact Or.inr ⟨kg2, hkg2, h1, y, hy, h2, x, hx, hbx, hcx, hsx⟩
  unfold buildConflictMatrix
  rw [hgroups]
  rw [mtxGet_nil]
  simp only [List.not_mem_nil, false_or]
  constructor
  · rintro ⟨kg, hkg, rfl, e1, he1, rfl, e2, he2, rfl, hcode, hsubj⟩
    have h1 := groupByKey_entry_prop courseYearKeyOf examValidCY exams kg
      hkg e1 he1
    have h2 := groupByKey_entry_prop courseYearKeyOf examValidCY exams kg
      hkg e2 he2
    exact ⟨e1, h1.1, e2, h2.1, h1.2.1, h2.2.1, h1.2.2, h2.2.2, rfl, rfl,
      hcode, hsubj⟩
  · rintro ⟨e1, he1, e2, he2, hv1, hv2, hk1, hk2, ha, hb, hcode, hab⟩
    have hfil1 : e1 ∈ exams.filter
        (fun x => examValidCY x && (courseYearKeyOf x == k)) :=
      List.mem_filter.mpr ⟨he1, by simp [hv1, hk1]⟩
    have hfil2 : e2 ∈ exams.filter
        (fun x => examValidCY x && (courseYearKeyOf x == k)) :=
      List.mem_filter.mpr ⟨he2, by simp [hv2, hk2]⟩
    have hne : ¬ (exams.filter
        (fun x => examValidCY x && (courseYearKeyOf x == k))).isEmpty = true := by
      intro hcontra
      rw [List.isEmpty_iff] at hcontra
      rw [hcontra] at hfil1
      simp at hfil1
    have hlook := groupByKey_lookup courseYearKeyOf examValidCY exams k
    rw [if_neg hne] at hlook
    have hmem := mem_of_alookup_eq_some hlook
    refine ⟨(k, exams.filter
      (fun x => examValidCY x && (courseYearKeyOf x == k))), hmem, rfl,
      e1, hfil1, ha.symm, e2, hfil2, hb.symm, hcode, ?_⟩
    rw [ha, hb]
    exact hab

/-- C6: the conflict matrix is symmetric, and an edge (k, A, B) exists
exactly when two sections with course and year present share the course-year
key k, carry the normalised subject identifiers A and B, and differ in both
section code and normalised subject identifier. -/
theorem buildConflictMatrix_symm_char (exams : List Exam) (k a b : String) :
    (b ∈ mtxGet (buildConflictMatrix exams) k a ↔
      a ∈ mtxGet (buildConflictMatrix exams) k b) ∧
    (b ∈ mtxGet (buildConflictMatrix exams) k a ↔
      ∃ e1 ∈ exams, ∃ e2 ∈ exams,
        examValidCY e1 = true ∧ examValidCY e2 = true ∧
        courseYearKeyOf e1 = k ∧ courseYearKeyOf e2 = k ∧
        normSubj e1.subjectId = a ∧ normSubj e2.subjectId = b ∧
        e1.code ≠ e2.code ∧ a ≠ b) := by
  refine ⟨?_, mem_buildConflictMatrix exams k a b⟩
  rw [mem_buildConflictMatrix, mem_buildConflictMatrix]
  constructor
  · rintro ⟨e1, he1, e2, he2, hv1, hv2, hk1, hk2, ha, hb, hcode, hab⟩
    exact ⟨e2, he2, e1, he1, hv2, hv1, hk2, hk1, hb, ha, Ne.symm hcode,
      Ne.symm hab⟩
  · rintro ⟨e1, he1, e2, he2, hv1, hv2, hk1, hk2, hb, ha, hcode, hab⟩
    exact ⟨e2, he2, e1, he1, hv2, hv1, hk2, hk1, ha, hb, Ne.symm hcode,
      Ne.symm hab⟩

/-! ## C5: Scenario A (pinned ETHC block) -/

/-- The Scenario A section: subject ETHC101, course BSIT, year 1, 3 lecture
units; all remaining fields arbitrary. -/
def scenarioAExam (code title instr dept oe lr : String) (sc : Nat)
    (reg : Bool) : Exam :=
  ⟨code, "ETHC101", title, "BSIT", 1, instr, dept, oe, 3, sc, reg, lr⟩

theorem getAvailableRooms_emptyState (e : Exam) (day slot : Nat)
    (rooms : List String) (rc : Bool) :
    getAvailableRooms e day slot rooms emptyState rc =
      rooms.filter (fun room =>
        (getAvailableBuildings e.dept e.subjectId).contains
          (getBuildingFromRoom room)) := by
  have h1 : roomsAt emptyState (dayLabel day) (timeSlot slot) = [] := rfl
  have h2 : roomsAt emptyState (dayLabel day) (timeSlot (slot + 1)) = [] := rfl
  by_cases hc : (rc && decide (slot < TIME_SLOTS.length - 1)) = true
  · simp only [getAvailableRooms, hc, if_true, h1, h2]
    simp
  · simp only [getAvailableRooms, hc, if_false, h1]
    simp

theorem generateExamSchedule_scenarioA
    (code title instr dept oe lr : String) (sc : Nat) (reg : Bool)
    (rooms : List String) (numDays : Nat) (hn : 0 < numDays)
    (hdept : strUpper dept ≠ "SAS")
    (hroom : rooms.filter (fun room =>
      (getAvailableBuildings dept "ETHC101").contains
        (getBuildingFromRoom room)) ≠ []) :
    ∃ s : ScheduledExam,
      generateExamSchedule [scenarioAExam code title instr dept oe lr sc reg]
        rooms numDays = [s] ∧
      s.CODE = code ∧ s.DAY = "Day 1" ∧ s.SLOT = "7:30-9:00" := by
  obtain ⟨r0, rest, hsplit⟩ : ∃ r0 rest, rooms.filter (fun room =>
      (getAvailableBuildings dept "ETHC101").contains
        (getBuildingFromRoom room)) = r0 :: rest := by
    cases h : rooms.filter (fun room =>
        (getAvailableBuildings dept "ETHC101").contains
          (getBuildingFromRoom room)) with
    | nil => exact absurd h hroom
    | cons a b => exact ⟨a, b, rfl⟩
  have hgen : isGenEdSubject
      (scenarioAExam code title instr dept oe lr sc reg).subjectId = true := rfl
  have hmath : isMathSubject
      (scenarioAExam code title instr dept oe lr sc reg) = false := rfl
  have harch : isArchSubject
      (scenarioAExam code title instr dept oe lr sc reg).subjectId = false := rfl
  have h6 : is6UnitSubject
      (scenarioAExam code title instr dept oe lr sc reg) = false := rfl
  have helig : isEligibleDept
      (scenarioAExam code title instr dept oe lr sc reg) = true := by
    simpa [isEligibleDept, scenarioAExam] using hdept
  have hnc : ∀ M : ConflictMatrix,
      hasConflict (scenarioAExam code title instr dept oe lr sc reg) 0 0
        emptyRun.state M = false := by
    intro M
    unfold hasConflict
    rw [show ((scenarioAExam code title instr dept oe lr sc reg).course == ""
        || (scenarioAExam code title instr dept oe lr sc reg).yearLevel == 0)
        = false from rfl]
    rw [if_neg (by simp)]
    refine List.any_eq_false.mpr (fun b _ => ?_)
    rw [show (alookup emptyRun.state.subjectScheduled b) = none from rfl]
    simp
  have havail : getAvailableRooms
      (scenarioAExam code title instr dept oe lr sc reg) 0 0 rooms
      emptyRun.state false = r0 :: rest := by
    rw [show emptyRun.state = emptyState from rfl, getAvailableRooms_emptyState]
    exact hsplit
  have htry : ∀ M : ConflictMatrix,
      tryScheduleGroup [scenarioAExam code title instr dept oe lr sc reg]
        0 0 rooms M emptyRun =
      (scheduleExam (scenarioAExam code title instr dept oe lr sc reg)
        0 0 r0 false emptyRun, true) := by
    intro M
    simp only [tryScheduleGroup, List.any_cons, List.any_nil, hnc M, h6,
      Bool.or_false, Bool.false_eq_true, if_false, if_neg, not_false_iff]
    rw [havail]
    rw [if_neg (by simp)]
    rfl
  have hcells : ∀ M : ConflictMatrix,
      tryGroupCells [scenarioAExam code title instr dept oe lr sc reg]
        [(0, 0)] rooms M emptyRun =
      (scheduleExam (scenarioAExam code title instr dept oe lr sc reg)
        0 0 r0 false emptyRun, true) := by
    intro M
    simp only [tryGroupCells]
    rw [htry M]
  have hblockcells : blockCells [⟨0, 0, 14⟩] numDays = [(0, 0)] := by
    unfold blockCells
    simp [hn]
  have hphase1 : ∀ M : ConflictMatrix,
      scheduleGenEdTimeBlocks
        [scenarioAExam code title instr dept oe lr sc reg] rooms M numDays
        emptyRun =
      (scheduleExam (scenarioAExam code title instr dept oe lr sc reg)
        0 0 r0 false emptyRun, 1, []) := by
    intro M
    unfold scheduleGenEdTimeBlocks
    rw [show genEdsByType [scenarioAExam code title instr dept oe lr sc reg] =
      [("ETHC", [scenarioAExam code title instr dept oe lr sc reg])] from rfl]
    rw [List.foldl_cons, List.foldl_nil]
    unfold genEdTypeStep
    rw [show groupExamsBySubject
        [scenarioAExam code title instr dept oe lr sc reg] =
      [("ETHC101", [scenarioAExam code title instr dept oe lr sc reg])]
        from rfl]
    rw [show genEdBlocks "ETHC" = [⟨0, 0, 14⟩] from rfl]
    rw [if_neg (by decide)]
    rw [hblockcells]
    unfold foldGroups
    rw [List.foldl_cons, List.foldl_nil]
    simp only []
    rw [hcells M]
    rfl
  have hfilter : [scenarioAExam code title instr dept oe lr sc reg].filter
      isEligibleDept = [scenarioAExam code title instr dept oe lr sc reg] := by
    simp [helig]
  refine ⟨mkScheduledExam (scenarioAExam code title instr dept oe lr sc reg)
    "Day 1" "7:30-9:00" r0, ?_, rfl, rfl, rfl⟩
  unfold generateExamSchedule runSchedule
  rw [hfilter]
  unfold runEligible
  simp only [hgen, hmath, harch, List.filter_cons, List.filter_nil,
    Bool.not_true, Bool.false_and, Bool.and_self, if_pos, if_neg,
    Bool.false_eq_true, not_false_iff, if_true, if_false]
  rw [hphase1]
  rfl

/-- C5 witness: the Scenario A theorem applied to a concrete department,
room list and day count. -/
theorem generateExamSchedule_scenarioA_inst :
    ∃ s : ScheduledExam,
      generateExamSchedule [scenarioAExam "E1" "T" "I" "CITE" "" "" 10 true]
        ["A-1"] 1 = [s] ∧
      s.CODE = "E1" ∧ s.DAY = "Day 1" ∧ s.SLOT = "7:30-9:00" :=
  generateExamSchedule_scenarioA "E1" "T" "I" "CITE" "" "" 10 true ["A-1"] 1
    (by decide) (by decide) (by decide)
